import Mathlib

/-!
# Aheui interpreter (`aheui.go`): embedding and verified properties

The Go program is embedded shallowly.  Go's `int` is modelled by `Int` together
with an explicit two's-complement wrap to 64 bits after every `+`, `-`, `*`,
`/` and unary minus.  Run-time panics (slice or array index out of range,
integer division by zero) are the `Except.error` results of the functions
below.  The 28-element array `storage [28][]int` is a total function on
`Fin 28`; each bank is a list in slice order (index 0 first, `append` adds at
the end).
-/

namespace Aheui

/-! ## Go `int` arithmetic -/

/-- Two's-complement wrap of an integer to the 64-bit range of Go's `int`. -/
def wrapInt (z : Int) : Int :=
  (z + 9223372036854775808) % 18446744073709551616 - 9223372036854775808

/-- The range of a Go `int`. -/
def isInt (z : Int) : Prop :=
  -9223372036854775808 ≤ z ∧ z < 9223372036854775808

instance (z : Int) : Decidable (isInt z) := by
  unfold isInt; exact inferInstance

/-- Run-time panics of the Go program. -/
inductive Fault where
  | indexOutOfRange
  | divideByZero
  deriving DecidableEq, Repr

/-! ## Data model (lines 12-61) -/

def DirKeep : Int := 0
def DirSet : Int := 1
def DirFlipX : Int := 2
def DirFlipY : Int := 3
def DirFlipXY : Int := 4

structure Dir where
  dx : Int
  dy : Int
  flag : Int
  deriving DecidableEq, Repr

structure Cell where
  op : Int
  value : Int
  dir : Dir
  deriving DecidableEq, Repr

structure Space where
  cells : List (List Cell)
  width : Int
  height : Int
  deriving DecidableEq, Repr

def OpKindPrint : Int := 6
def OpKindInput : Int := 7

def OpDiv : Int := 2
def OpAdd : Int := 3
def OpMul : Int := 4
def OpMod : Int := 5
def OpDup : Int := 8
def OpSwitch : Int := 9
def OpMove : Int := 10
def OpCmp : Int := 12
def OpBranch : Int := 14
def OpSub : Int := 16
def OpSwap : Int := 17
def OpExit : Int := 18

def OpPrintNum : Int := 100
def OpPrintChar : Int := 101
def OpPop : Int := 102
def OpInputNum : Int := 103
def OpInputChar : Int := 104
def OpPush : Int := 105

/-- The zero value of `Dir`. -/
def Dir.zero : Dir := ⟨0, 0, 0⟩

/-- The zero value of `Cell` (`var cell Cell`, and the result `c` of `Decode`
before any assignment). -/
def Cell.zero : Cell := ⟨0, 0, Dir.zero⟩

/-! ## Tables (lines 63-93) -/

/-- The entries of the map literal `dirs`. -/
def dirsEntries : List (Int × Dir) :=
  [ (0, ⟨1, 0, DirSet⟩),
    (2, ⟨2, 0, DirSet⟩),
    (4, ⟨-1, 0, DirSet⟩),
    (6, ⟨-2, 0, DirSet⟩),
    (8, ⟨0, -1, DirSet⟩),
    (12, ⟨0, -2, DirSet⟩),
    (13, ⟨0, 1, DirSet⟩),
    (17, ⟨0, 2, DirSet⟩),
    (18, ⟨0, 0, DirFlipY⟩),
    (19, ⟨0, 0, DirFlipXY⟩),
    (20, ⟨0, 0, DirFlipX⟩) ]

/-- The map read `dirs[k]`: a missing key reads as the zero `Dir`. -/
def dirs (k : Int) : Dir :=
  (dirsEntries.lookup k).getD Dir.zero

def values : List Int :=
  [0, 2, 4, 4, 2, 5, 5, 3, 5, 7, 9, 9, 7, 9, 9, 8, 4, 4, 6, 2, 4, 1, 3, 4, 3, 4, 4, 3]

/-- The entries of the map literal `requiredElems`. -/
def requiredElemsEntries : List (Int × Int) :=
  [ (OpDiv, 2),
    (OpAdd, 2),
    (OpMul, 2),
    (OpMod, 2),
    (OpDup, 1),
    (OpMove, 1),
    (OpCmp, 2),
    (OpBranch, 1),
    (OpSub, 2),
    (OpSwap, 2),
    (OpPrintNum, 1),
    (OpPrintChar, 1),
    (OpPop, 1) ]

/-- The map read `requiredElems[op]`: a missing key reads as 0. -/
def requiredElems (op : Int) : Int :=
  (requiredElemsEntries.lookup op).getD 0

/-- A slice read `xs[i]` with Go's bounds check. -/
def index {α : Type} (xs : List α) (i : Int) : Except Fault α :=
  if 0 ≤ i then
    match xs[i.toNat]? with
    | some v => .ok v
    | none => .error .indexOutOfRange
  else .error .indexOutOfRange

/-! ## Decoder (lines 95-127) -/

def IsHangul (ch : Int) : Bool :=
  0xAC00 ≤ ch && ch ≤ 0xD7A3

/-- The function `Decode`.  Go's `/` and `%` truncate toward zero
(`Int.tdiv`, `Int.tmod`); the read `values[c.value]` is bounds-checked. -/
def Decode (r : Int) : Except Fault Cell :=
  if IsHangul r then
    let ch : Int := r - 0xAC00
    let dir := dirs (Int.tmod (Int.tdiv ch 28) 21)
    let value := Int.tmod ch 28
    let op := Int.tdiv (Int.tdiv ch 28) 21
    if op = OpKindPrint then
      if value = 21 then .ok ⟨OpPrintNum, value, dir⟩
      else if value = 27 then .ok ⟨OpPrintChar, value, dir⟩
      else .ok ⟨OpPop, value, dir⟩
    else if op = OpKindInput then
      if value = 21 then .ok ⟨OpInputNum, value, dir⟩
      else if value = 27 then .ok ⟨OpInputChar, value, dir⟩
      else
        match index values value with
        | .ok v => .ok ⟨OpPush, v, dir⟩
        | .error e => .error e
    else .ok ⟨op, value, dir⟩
  else .ok Cell.zero

/-! ## Grid loading (lines 129-157)

The source text is the sequence of runes that Go reads from it (`range` over a
string and `utf8.RuneCountInString` agree on that sequence); the line feed is
rune 10 and the carriage return rune 13. -/

/-- The cutset of `strings.Trim(line, "\r\n")`. -/
def isCRLF (c : Int) : Bool :=
  c = 13 || c = 10

/-- The call `strings.Trim(line, "\r\n")`: every leading and every trailing
carriage return or line feed is removed. -/
def Trim (line : List Int) : List Int :=
  ((line.dropWhile isCRLF).reverse.dropWhile isCRLF).reverse

/-- The loop `for _, ch := range line`, appending `Decode(ch)` to the row. -/
def decodeLine : List Int → Except Fault (List Cell)
  | [] => .ok []
  | ch :: rest =>
    match Decode ch with
    | .ok c =>
      match decodeLine rest with
      | .ok cs => .ok (c :: cs)
      | .error e => .error e
    | .error e => .error e

/-- Lines 139-153: a line that `ReadString` returned without error is trimmed,
counted in runes, decoded and appended as a row. -/
def addLine (space : Space) (line : List Int) : Except Fault Space :=
  let line := Trim line
  let w : Int := (line.length : Int)
  let width := if w > space.width then w else space.width
  match decodeLine line with
  | .ok cells => .ok ⟨space.cells ++ [cells], width, wrapInt (space.height + 1)⟩
  | .error e => .error e

/-- The loop of `Input` over the unread text.  `line` is what the pending call
`reader.ReadString(10)` has read so far: at a line feed the call returns the
line, line feed included, with a nil error; at the end of the text it returns
`io.EOF`, and the loop breaks without looking at `line`. -/
def inputLoop (space : Space) (line : List Int) : List Int → Except Fault Space
  | [] => .ok space
  | c :: rest =>
    if c = 10 then
      match addLine space (line ++ [c]) with
      | .ok sp => inputLoop sp [] rest
      | .error e => .error e
    else inputLoop space (line ++ [c]) rest

/-- The function `Input`, starting from `&Space{nil, 0, 0}`. -/
def Input (text : List Int) : Except Fault Space :=
  inputLoop ⟨[], 0, 0⟩ [] text

/-! ## Storage (lines 159-216) -/

structure Context where
  curStorage : Int
  storage : Fin 28 → List Int

/-- The array index `ctx.storage[s]` with Go's bounds check. -/
def bank (s : Int) : Except Fault (Fin 28) :=
  if h : 0 ≤ s ∧ s < 28 then .ok ⟨s.toNat, by omega⟩
  else .error .indexOutOfRange

def Context.SetStorage (ctx : Context) (s : Int) : Context :=
  { ctx with curStorage := s }

def Context.StorageSize (ctx : Context) : Except Fault Int :=
  match bank ctx.curStorage with
  | .ok i => .ok (ctx.storage i).length
  | .error e => .error e

def Context.PushTo (ctx : Context) (s : Int) (value : Int) : Except Fault Context :=
  match bank s with
  | .ok i => .ok { ctx with storage := Function.update ctx.storage i (ctx.storage i ++ [value]) }
  | .error e => .error e

def Context.Push (ctx : Context) (value : Int) : Except Fault Context :=
  ctx.PushTo ctx.curStorage value

/-- The method `Pop`: the removed value and the context afterwards.  The queue
bank gives up index 0, a stack bank index `len - 1`. -/
def Context.Pop (ctx : Context) : Except Fault (Int × Context) :=
  let s := ctx.curStorage
  if s = 21 then
    match index (ctx.storage 21) 0 with
    | .ok value =>
      .ok (value, { ctx with storage := Function.update ctx.storage 21 ((ctx.storage 21).drop 1) })
    | .error e => .error e
  else
    match bank s with
    | .ok i =>
      let last : Int := ((ctx.storage i).length : Int) - 1
      match index (ctx.storage i) last with
      | .ok value =>
        .ok (value, { ctx with storage := Function.update ctx.storage i ((ctx.storage i).take last.toNat) })
      | .error e => .error e
    | .error e => .error e

def Context.Swap (ctx : Context) : Except Fault Context :=
  match ctx.Pop with
  | .ok (a, c1) =>
    match c1.Pop with
    | .ok (b, c2) =>
      match c2.Push a with
      | .ok c3 => c3.Push b
      | .error e => .error e
    | .error e => .error e
  | .error e => .error e

/-- The method `Dup`.  On the queue bank the fresh slice `make([]int, len+1)`
after `copy(fresh[1:], orig)` is `0 :: orig`; then `fresh[0] = fresh[1]`. -/
def Context.Dup (ctx : Context) : Except Fault Context :=
  let s := ctx.curStorage
  if s = 21 then
    let orig := ctx.storage 21
    let fresh : List Int := 0 :: orig
    match index fresh 1 with
    | .ok v => .ok { ctx with storage := Function.update ctx.storage 21 (fresh.set 0 v) }
    | .error e => .error e
  else
    match bank s with
    | .ok i =>
      match index (ctx.storage i) (((ctx.storage i).length : Int) - 1) with
      | .ok v => ctx.Push v
      | .error e => .error e
    | .error e => .error e

/-! ## Console collaborators -/

/-- The two reads of standard input, `fmt.Scanf("%d", &a)` and
`fmt.Scanf("%c", &a)` with `a` starting at 0: each maps the unread bytes to the
value left in `a` and the bytes still unread.  The library is not part of the
program, so both are parameters. -/
structure Scanner where
  scanNum : List Nat → Int × List Nat
  scanChar : List Nat → Int × List Nat

/-- The character written by `fmt.Printf("%c", v)` for an `int`: the value is
read as an unsigned 64-bit number, and anything above U+10FFFF or in the
surrogate range is written as U+FFFD. -/
def fmtC (v : Int) : Char :=
  let u : Nat := (v % 18446744073709551616).toNat
  if 0x10FFFF < u then Char.ofNat 0xFFFD
  else if 0xD800 ≤ u ∧ u ≤ 0xDFFF then Char.ofNat 0xFFFD
  else Char.ofNat u

/-- The text written by `fmt.Printf("%d", v)`. -/
def fmtD (v : Int) : String :=
  toString v

/-! ## Execution engine (lines 218-275) -/

/-- The variables of `Execute` that live across iterations, with the unread
standard input and the text written so far. -/
structure State where
  x : Int
  y : Int
  dir : Dir
  ctx : Context
  stdin : List Nat
  out : String

/-- The result of one iteration of the loop: the loop goes on, or `Execute`
returns. -/
inductive Outcome where
  | running (s : State)
  | halted (s : State)

/-- The state on entry to the loop; `new(Context)` has selector 0 and 28 nil
banks. -/
def State.init (stdin : List Nat) : State :=
  { x := 0, y := 0, dir := Dir.zero, ctx := ⟨0, fun _ => []⟩, stdin := stdin, out := "" }

/-- Lines 225-228: the cell at the pointer, or the zero cell beyond the row. -/
def fetch (space : Space) (x y : Int) : Except Fault Cell :=
  match index space.cells y with
  | .ok row =>
    if x < (row.length : Int) then index row x else .ok Cell.zero
  | .error e => .error e

/-- Lines 231-236: the switch on `cell.dir.flag`. -/
def updateDir (dir : Dir) (cell : Cell) : Dir :=
  if cell.dir.flag = DirSet then cell.dir
  else if cell.dir.flag = DirFlipX then { dir with dx := wrapInt (-dir.dx) }
  else if cell.dir.flag = DirFlipY then { dir with dy := wrapInt (-dir.dy) }
  else if cell.dir.flag = DirFlipXY then { dir with dx := wrapInt (-dir.dx), dy := wrapInt (-dir.dy) }
  else dir

/-- The assignment `dir.dx, dir.dy = -dir.dx, -dir.dy`. -/
def reverse (dir : Dir) : Dir :=
  { dir with dx := wrapInt (-dir.dx), dy := wrapInt (-dir.dy) }

/-- Lines 266-273: the move and the four wrap tests, in source order. -/
def advance (space : Space) (s : State) : State :=
  let x := wrapInt (s.x + s.dir.dx)
  let y := wrapInt (s.y + s.dir.dy)
  let y := if y < 0 then wrapInt (space.height - 1) else y
  let y := if y ≥ space.height then 0 else y
  let x := if x < 0 then wrapInt (space.width - 1) else x
  let x := if x ≥ space.width then 0 else x
  { s with x := x, y := y }

/-- Both `Pop`s of a binary operation: `a` first, then `b`. -/
def pop2 (ctx : Context) : Except Fault (Int × Int × Context) :=
  match ctx.Pop with
  | .ok (a, c1) =>
    match c1.Pop with
    | .ok (b, c2) => .ok (a, b, c2)
    | .error e => .error e
  | .error e => .error e

/-- Lines 244-263: the switch on `cell.op`, with `s.dir` already updated.  A
result `running` falls through to the label `Next`; `halted` is the `return`
of `OpExit`. -/
def execOp (sc : Scanner) (cell : Cell) (s : State) : Except Fault Outcome :=
  let ctx := s.ctx
  let continue_ (c : Except Fault Context) : Except Fault Outcome :=
    match c with
    | .ok c => .ok (.running { s with ctx := c })
    | .error e => .error e
  if cell.op = OpDiv then
    match pop2 ctx with
    | .ok (a, b, c) =>
      if a = 0 then .error .divideByZero else continue_ (c.Push (wrapInt (Int.tdiv b a)))
    | .error e => .error e
  else if cell.op = OpAdd then
    match pop2 ctx with
    | .ok (a, b, c) => continue_ (c.Push (wrapInt (b + a)))
    | .error e => .error e
  else if cell.op = OpMul then
    match pop2 ctx with
    | .ok (a, b, c) => continue_ (c.Push (wrapInt (b * a)))
    | .error e => .error e
  else if cell.op = OpMod then
    match pop2 ctx with
    | .ok (a, b, c) =>
      if a = 0 then .error .divideByZero else continue_ (c.Push (Int.tmod b a))
    | .error e => .error e
  else if cell.op = OpPrintNum then
    match ctx.Pop with
    | .ok (v, c) => .ok (.running { s with ctx := c, out := s.out ++ fmtD v })
    | .error e => .error e
  else if cell.op = OpPrintChar then
    match ctx.Pop with
    | .ok (v, c) => .ok (.running { s with ctx := c, out := s.out.push (fmtC v) })
    | .error e => .error e
  else if cell.op = OpPop then
    match ctx.Pop with
    | .ok (_, c) => .ok (.running { s with ctx := c })
    | .error e => .error e
  else if cell.op = OpInputNum then
    let r := sc.scanNum s.stdin
    match ctx.Push r.1 with
    | .ok c => .ok (.running { s with ctx := c, stdin := r.2 })
    | .error e => .error e
  else if cell.op = OpInputChar then
    let r := sc.scanChar s.stdin
    match ctx.Push r.1 with
    | .ok c => .ok (.running { s with ctx := c, stdin := r.2 })
    | .error e => .error e
  else if cell.op = OpPush then continue_ (ctx.Push cell.value)
  else if cell.op = OpDup then continue_ ctx.Dup
  else if cell.op = OpSwitch then .ok (.running { s with ctx := ctx.SetStorage cell.value })
  else if cell.op = OpMove then
    match ctx.Pop with
    | .ok (v, c) => continue_ (c.PushTo cell.value v)
    | .error e => .error e
  else if cell.op = OpCmp then
    match pop2 ctx with
    | .ok (a, b, c) => if b ≥ a then continue_ (c.Push 1) else continue_ (c.Push 0)
    | .error e => .error e
  else if cell.op = OpBranch then
    match ctx.Pop with
    | .ok (v, c) =>
      if v = 0 then .ok (.running { s with ctx := c, dir := reverse s.dir })
      else .ok (.running { s with ctx := c })
    | .error e => .error e
  else if cell.op = OpSub then
    match pop2 ctx with
    | .ok (a, b, c) => continue_ (c.Push (wrapInt (b - a)))
    | .error e => .error e
  else if cell.op = OpSwap then continue_ ctx.Swap
  else if cell.op = OpExit then .ok (.halted s)
  else .ok (.running s)

/-- Lines 230-273: one iteration of the loop on an already fetched cell. -/
def stepCell (sc : Scanner) (space : Space) (cell : Cell) (s : State) : Except Fault Outcome :=
  let s1 : State := { s with dir := updateDir s.dir cell }
  match s1.ctx.StorageSize with
  | .ok size =>
    if size < requiredElems cell.op then
      .ok (.running (advance space { s1 with dir := reverse s1.dir }))
    else
      match execOp sc cell s1 with
      | .ok (.running s2) => .ok (.running (advance space s2))
      | .ok (.halted s2) => .ok (.halted s2)
      | .error e => .error e
  | .error e => .error e

/-- One iteration of the loop of `Execute`: fetch, then `stepCell`. -/
def step (sc : Scanner) (space : Space) (s : State) : Except Fault Outcome :=
  match fetch space s.x s.y with
  | .ok cell => stepCell sc space cell s
  | .error e => .error e

/-- The first `n` iterations of the loop from state `s`, stopping early at the
`return` or at a panic. -/
def stepN (sc : Scanner) (space : Space) : Nat → State → Except Fault Outcome
  | 0, s => .ok (.running s)
  | n + 1, s =>
    match step sc space s with
    | .ok (.running s1) => stepN sc space n s1
    | r => r

/-- The method `Execute`, run for at most `fuel` iterations. -/
def Execute (sc : Scanner) (space : Space) (stdin : List Nat) (fuel : Nat) : Except Fault Outcome :=
  stepN sc space fuel (State.init stdin)

/-! ## Fixtures and call sequences used in the statements -/

/-- A console whose input is exhausted: both reads leave `a` at 0. -/
def Scanner.eof : Scanner :=
  ⟨fun bytes => (0, bytes), fun bytes => (0, bytes)⟩

/-- The context `new(Context)` after selecting bank `cur` and filling it with
`xs` (slice order). -/
def Context.single (cur : Int) (i : Fin 28) (xs : List Int) : Context :=
  ⟨cur, Function.update (fun _ => []) i xs⟩

/-- The calls `Push(v1); ...; Push(vn)` in sequence. -/
def pushAll (ctx : Context) : List Int → Except Fault Context
  | [] => .ok ctx
  | v :: vs =>
    match ctx.Push v with
    | .ok c => pushAll c vs
    | .error e => .error e

/-- The next `n` calls of `Pop`: the values in the order returned, and the
context afterwards. -/
def popN : Nat → Context → Except Fault (List Int × Context)
  | 0, ctx => .ok ([], ctx)
  | n + 1, ctx =>
    match ctx.Pop with
    | .ok (v, c1) =>
      match popN n c1 with
      | .ok (vs, c2) => .ok (v :: vs, c2)
      | .error e => .error e
    | .error e => .error e

/-- The compare cell with the rightward medial, the decoding of U+C790. -/
def cmpCell : Cell := ⟨OpCmp, 0, ⟨1, 0, DirSet⟩⟩

/-- A one-cell grid holding `cell`. -/
def Space.single (cell : Cell) : Space := ⟨[[cell]], 1, 1⟩

/-- The subtract cell with the rightward medial, the decoding of U+D0C0. -/
def subCell : Cell := ⟨OpSub, 0, ⟨1, 0, DirSet⟩⟩

/-- The no-op cell with the double-step rightward medial, the decoding of
U+AC38. -/
def jumpCell : Cell := ⟨0, 0, ⟨2, 0, DirSet⟩⟩

/-- A grid of one row of three double-step cells. -/
def jumpSpace : Space := ⟨[[jumpCell, jumpCell, jumpCell]], 3, 1⟩

/-- The state carried by an outcome of the loop. -/
def Outcome.state : Outcome → State
  | .running s => s
  | .halted s => s

/-- Every cell of the grid is the decoding of some character. -/
def Space.decoded (space : Space) : Prop :=
  ∀ row ∈ space.cells, ∀ c ∈ row, ∃ r, Decode r = .ok c

/-- The select-bank cell with final 1 and the rightward medial, the decoding of
U+C0AD. -/
def switchCell : Cell := ⟨OpSwitch, 1, ⟨1, 0, DirSet⟩⟩

/-- The move-to-bank cell with final 1 and the rightward medial, the decoding
of U+C2F9. -/
def moveCell : Cell := ⟨OpMove, 1, ⟨1, 0, DirSet⟩⟩

/-- The number of elements stored in all 28 banks together. -/
def Context.total (ctx : Context) : Nat :=
  Finset.univ.sum (fun j : Fin 28 => (ctx.storage j).length)

/-- The divide cell with the rightward medial, the decoding of U+B098. -/
def divCell : Cell := ⟨OpDiv, 0, ⟨1, 0, DirSet⟩⟩

/-- The modulo cell with the rightward medial, the decoding of U+B77C. -/
def modCell : Cell := ⟨OpMod, 0, ⟨1, 0, DirSet⟩⟩

/-- The halt cell with the rightward medial, the decoding of U+D558. -/
def haltCell : Cell := ⟨OpExit, 0, ⟨1, 0, DirSet⟩⟩

/-- A grid of the single row `cs`, as wide as that row. -/
def Space.row (cs : List Cell) : Space := ⟨[cs], (cs.length : Int), 1⟩

/-! ## Basic facts about the storage operations -/

theorem bank_val (i : Fin 28) : bank (i.val : Int) = .ok i := by
  have h : (0 : Int) ≤ (i.val : Int) ∧ (i.val : Int) < 28 := by omega
  simp [bank, h]

theorem bank_eq_ok {s : Int} {i : Fin 28} (h : bank s = .ok i) : s = (i.val : Int) := by
  unfold bank at h
  split at h
  · rename_i hs
    injection h with h
    subst h
    simp only [Int.toNat_of_nonneg hs.1]
  · cases h

theorem bank_ok_ne {s : Int} {i : Fin 28} (h : bank s = .ok i) (hi : i ≠ 21) : s ≠ 21 := by
  intro hs
  have := bank_eq_ok h
  apply hi
  apply Fin.ext
  have h21 : ((21 : Fin 28).val : Int) = 21 := by decide
  omega

theorem bank_twentyone : bank 21 = .ok 21 := by
  simp [bank]

theorem index_zero_cons {α : Type} (x : α) (xs : List α) : index (x :: xs) 0 = .ok x := by
  simp [index]

theorem index_last {α : Type} (xs : List α) (v : α) :
    index (xs ++ [v]) (((xs ++ [v]).length : Int) - 1) = .ok v := by
  have h : (((xs ++ [v]).length : Int) - 1) = (xs.length : Int) := by simp
  rw [h]
  simp [index]

theorem take_last {α : Type} (xs : List α) (v : α) :
    (xs ++ [v]).take ((((xs ++ [v]).length : Int) - 1).toNat) = xs := by
  have h : (((xs ++ [v]).length : Int) - 1) = (xs.length : Int) := by simp
  rw [h]
  simp

theorem Push_bank (ctx : Context) (i : Fin 28) (v : Int) (h : bank ctx.curStorage = .ok i) :
    ctx.Push v = .ok { ctx with storage := Function.update ctx.storage i (ctx.storage i ++ [v]) } := by
  simp [Context.Push, Context.PushTo, h]

theorem Pop_queue (ctx : Context) (v : Int) (rest : List Int)
    (hcur : ctx.curStorage = 21) (hb : ctx.storage 21 = v :: rest) :
    ctx.Pop = .ok (v, { ctx with storage := Function.update ctx.storage 21 rest }) := by
  simp [Context.Pop, hcur, hb, index_zero_cons]

theorem Pop_stack (ctx : Context) (i : Fin 28) (v : Int) (rest : List Int)
    (hcur : bank ctx.curStorage = .ok i) (hi : i ≠ 21) (hb : ctx.storage i = rest ++ [v]) :
    ctx.Pop = .ok (v, { ctx with storage := Function.update ctx.storage i rest }) := by
  have hne : ctx.curStorage ≠ 21 := bank_ok_ne hcur hi
  simp only [Context.Pop, hne, if_false, hcur, hb, index_last, take_last]

/-- On the queue bank `Swap` moves the two front elements to the back, in their
original order. -/
theorem Swap_queue (ctx : Context) (x y : Int) (rest : List Int)
    (hcur : ctx.curStorage = 21) (hb : ctx.storage 21 = x :: y :: rest) :
    ctx.Swap = .ok { ctx with storage := Function.update ctx.storage 21 (rest ++ [x, y]) } := by
  obtain ⟨cur, st⟩ := ctx
  simp only at hcur hb
  subst hcur
  simp [Context.Swap, Context.Pop, Context.Push, Context.PushTo, bank_twentyone, index, hb]

/-- C1 (code defect).  `Swap` on the queue bank 21 holding `[1, 2, 3]` (front
first) returns the bank `[3, 1, 2]`: the two front elements are moved to the
back in their old order, and the bank is not `[2, 1, 3]`. -/
theorem C1_Swap_queue_failing :
    ∃ c, (Context.single 21 21 [1, 2, 3]).Swap = .ok c ∧
      c.storage 21 = [3, 1, 2] ∧ c.storage 21 ≠ [2, 1, 3] := by
  refine ⟨_, Swap_queue (Context.single 21 21 [1, 2, 3]) 1 2 [3] rfl rfl, ?_, ?_⟩
  · simp [Context.single]
  · simp [Context.single]

/-! ## The underflow table -/

/-- C2 (counterexample).  The syllable U+C2F8 decodes to a move-to-bank cell,
and the underflow guard requires one element for it, not zero. -/
theorem C2_move_requires_one :
    Decode 0xC2F8 = .ok ⟨OpMove, 0, ⟨1, 0, DirSet⟩⟩ ∧ requiredElems OpMove = 1 ∧
      requiredElems OpMove ≠ 0 := by
  refine ⟨by rfl, by decide, by decide⟩

/-- C2 (amended).  The required element count read by the underflow guard is 2
for add, sub, mul, div, mod, compare and swap; 1 for plain pop, print-number,
print-char, duplicate, branch and move-to-bank; and 0 for every other
operation code. -/
theorem C2_requiredElems_table (op : Int) :
    requiredElems op =
      if op ∈ [OpAdd, OpSub, OpMul, OpDiv, OpMod, OpCmp, OpSwap] then 2
      else if op ∈ [OpPop, OpPrintNum, OpPrintChar, OpDup, OpBranch, OpMove] then 1
      else 0 := by
  simp only [requiredElems, requiredElemsEntries, List.lookup, OpDiv, OpAdd, OpMul, OpMod, OpDup,
    OpMove, OpCmp, OpBranch, OpSub, OpSwap, OpPrintNum, OpPrintChar, OpPop, List.mem_cons,
    List.mem_singleton, List.not_mem_nil, or_false]
  by_cases h2 : op = 2
  · subst h2; decide
  by_cases h3 : op = 3
  · subst h3; decide
  by_cases h4 : op = 4
  · subst h4; decide
  by_cases h5 : op = 5
  · subst h5; decide
  by_cases h8 : op = 8
  · subst h8; decide
  by_cases h10 : op = 10
  · subst h10; decide
  by_cases h12 : op = 12
  · subst h12; decide
  by_cases h14 : op = 14
  · subst h14; decide
  by_cases h16 : op = 16
  · subst h16; decide
  by_cases h17 : op = 17
  · subst h17; decide
  by_cases h100 : op = 100
  · subst h100; decide
  by_cases h101 : op = 101
  · subst h101; decide
  by_cases h102 : op = 102
  · subst h102; decide
  have e2 : (op == 2) = false := by simpa using h2
  have e3 : (op == 3) = false := by simpa using h3
  have e4 : (op == 4) = false := by simpa using h4
  have e5 : (op == 5) = false := by simpa using h5
  have e8 : (op == 8) = false := by simpa using h8
  have e10 : (op == 10) = false := by simpa using h10
  have e12 : (op == 12) = false := by simpa using h12
  have e14 : (op == 14) = false := by simpa using h14
  have e16 : (op == 16) = false := by simpa using h16
  have e17 : (op == 17) = false := by simpa using h17
  have e100 : (op == 100) = false := by simpa using h100
  have e101 : (op == 101) = false := by simpa using h101
  have e102 : (op == 102) = false := by simpa using h102
  simp [e2, e3, e4, e5, e8, e10, e12, e14, e16, e17, e100, e101, e102, h2, h3, h4, h5, h8, h10,
    h12, h14, h16, h17, h100, h101, h102]

/-! ## The underflow bounce -/

theorem stepCell_underflow (sc : Scanner) (space : Space) (cell : Cell) (s : State) (n : Int)
    (hsize : s.ctx.StorageSize = .ok n) (hlt : n < requiredElems cell.op) :
    stepCell sc space cell s =
      .ok (.running (advance space { s with dir := reverse (updateDir s.dir cell) })) := by
  simp [stepCell, hsize, hlt]

/-- C3.  When the current bank holds fewer elements than the fetched cell's
operation requires, one step does not halt and does not fail; it leaves the
banks, the selector, the input and the output unchanged; the vector afterwards
is the negation of the vector obtained from the cell's direction field; and the
pointer is the old pointer advanced by that negated vector, then wrapped. -/
theorem C3_underflow_bounce (sc : Scanner) (space : Space) (cell : Cell) (s : State) (n : Int)
    (hfetch : fetch space s.x s.y = .ok cell)
    (hsize : s.ctx.StorageSize = .ok n) (hlt : n < requiredElems cell.op) :
    ∃ s1, step sc space s = .ok (.running s1) ∧
      s1.ctx = s.ctx ∧ s1.out = s.out ∧ s1.stdin = s.stdin ∧
      s1.dir.dx = wrapInt (-(updateDir s.dir cell).dx) ∧
      s1.dir.dy = wrapInt (-(updateDir s.dir cell).dy) ∧
      s1.dir.flag = (updateDir s.dir cell).flag ∧
      s1.x = (advance space { s with dir := reverse (updateDir s.dir cell) }).x ∧
      s1.y = (advance space { s with dir := reverse (updateDir s.dir cell) }).y := by
  refine ⟨advance space { s with dir := reverse (updateDir s.dir cell) }, ?_, ?_⟩
  · simp only [step, hfetch]
    exact stepCell_underflow sc space cell s n hsize hlt
  · simp [advance, reverse]

/-- C3 (witness).  The compare cell decoded from U+C790, alone on a grid and met
with all banks empty, leaves the vector at (-1, 0) and the storage untouched. -/
theorem C3_underflow_bounce_witness :
    Decode 0xC790 = .ok cmpCell ∧
    ∃ s1, step Scanner.eof (Space.single cmpCell) (State.init []) = .ok (.running s1) ∧
      s1.dir.dx = -1 ∧ s1.dir.dy = 0 ∧ s1.ctx = (State.init []).ctx ∧ s1.out = "" := by
  refine ⟨by rfl, ?_⟩
  obtain ⟨s1, h1, h2, h3, _, h5, h6, _, _, _⟩ :=
    C3_underflow_bounce Scanner.eof (Space.single cmpCell) cmpCell (State.init []) 0
      (by rfl) (by rfl) (by decide)
  refine ⟨s1, h1, ?_, ?_, h2, h3⟩
  · rw [h5]; decide
  · rw [h6]; decide

/-! ## Binary operations -/

theorem index_ok_lt {α : Type} {xs : List α} {i : Int} {v : α} (h : index xs i = .ok v) :
    0 ≤ i ∧ i < (xs.length : Int) := by
  unfold index at h
  split at h
  · rename_i h0
    split at h
    · rename_i w hw
      have := (List.getElem?_eq_some_iff.mp hw).1
      omega
    · cases h
  · cases h

/-- A successful `Pop` keeps the selector, which names a bank, and shortens that
bank by one. -/
theorem Pop_ok_size {ctx c1 : Context} {a : Int} (h : ctx.Pop = .ok (a, c1)) :
    ∃ i, bank ctx.curStorage = .ok i ∧ c1.curStorage = ctx.curStorage ∧
      (∀ j, j ≠ i → c1.storage j = ctx.storage j) ∧
      (ctx.storage i).length = (c1.storage i).length + 1 := by
  unfold Context.Pop at h
  by_cases hs : ctx.curStorage = 21
  · simp only [hs, if_true] at h
    split at h
    · rename_i v hv
      injection h with h
      injection h with h1 h2
      subst h2
      have hlt := index_ok_lt hv
      refine ⟨21, by rw [hs]; exact bank_twentyone, hs.symm ▸ rfl, ?_, ?_⟩
      · intro j hj; simp [Function.update_noteq hj]
      · simp only [Function.update_same, List.length_drop]
        have : 1 ≤ (ctx.storage 21).length := by omega
        omega
    · cases h
  · simp only [hs, if_false] at h
    split at h
    · rename_i i hi
      split at h
      · rename_i v hv
        injection h with h
        injection h with h1 h2
        subst h2
        have hlt := index_ok_lt hv
        refine ⟨i, hi, rfl, ?_, ?_⟩
        · intro j hj; simp [Function.update_noteq hj]
        · simp only [Function.update_same, List.length_take]
          omega
      · cases h
    · cases h

theorem StorageSize_of_bank {ctx : Context} {i : Fin 28} (h : bank ctx.curStorage = .ok i) :
    ctx.StorageSize = .ok ((ctx.storage i).length : Int) := by
  simp [Context.StorageSize, h]

/-- Two successful `Pop`s in a row need a current bank of at least two
elements, and leave a context on which `Push` succeeds. -/
theorem pop2_ok_size {ctx c1 c2 : Context} {a b : Int}
    (ha : ctx.Pop = .ok (a, c1)) (hb : c1.Pop = .ok (b, c2)) :
    ∃ n : Int, ctx.StorageSize = .ok n ∧ 2 ≤ n ∧ pop2 ctx = .ok (a, b, c2) ∧
      ∀ v, ∃ c3, c2.Push v = .ok c3 := by
  obtain ⟨i, hi, hc1, _, hl1⟩ := Pop_ok_size ha
  obtain ⟨j, hj, hc2, _, hl2⟩ := Pop_ok_size hb
  have hij : j = i := by
    rw [hc1, hi] at hj
    injection hj with hj
    exact hj.symm
  subst hij
  refine ⟨_, StorageSize_of_bank hi, by omega, by simp [pop2, ha, hb], ?_⟩
  intro v
  have hb2 : bank c2.curStorage = .ok j := by rw [hc2, hc1]; exact hi
  exact ⟨_, Push_bank c2 j v hb2⟩

theorem requiredElems_binary {op : Int}
    (hop : op = OpAdd ∨ op = OpSub ∨ op = OpMul ∨ op = OpCmp) : requiredElems op = 2 := by
  rcases hop with h | h | h | h <;> subst h <;> decide

theorem execOp_binary (sc : Scanner) (cell : Cell) (s : State) (a b f : Int) (c2 c3 : Context)
    (hop : cell.op = OpAdd ∨ cell.op = OpSub ∨ cell.op = OpMul ∨ cell.op = OpCmp)
    (hf : f = if cell.op = OpAdd then wrapInt (b + a)
          else if cell.op = OpSub then wrapInt (b - a)
          else if cell.op = OpMul then wrapInt (b * a)
          else if b ≥ a then 1 else 0)
    (hpop : pop2 s.ctx = .ok (a, b, c2)) (hpush : c2.Push f = .ok c3) :
    execOp sc cell s = .ok (.running { s with ctx := c3 }) := by
  rcases hop with h | h | h | h
  · simp only [h, OpAdd, OpSub, OpMul, OpCmp] at hf
    simp only [if_true] at hf
    subst hf
    simp [execOp, h, OpAdd, OpDiv, hpop, hpush]
  · simp only [h, OpAdd, OpSub, OpMul, OpCmp] at hf
    norm_num at hf
    subst hf
    simp [execOp, h, OpAdd, OpDiv, OpSub, OpMul, OpMod, OpPrintNum, OpPrintChar, OpPop,
      OpInputNum, OpInputChar, OpPush, OpDup, OpSwitch, OpMove, OpCmp, OpBranch, hpop, hpush]
  · simp only [h, OpAdd, OpSub, OpMul, OpCmp] at hf
    norm_num at hf
    subst hf
    simp [execOp, h, OpAdd, OpDiv, OpMul, hpop, hpush]
  · simp only [h, OpAdd, OpSub, OpMul, OpCmp] at hf
    norm_num at hf
    simp only [execOp, h, OpAdd, OpDiv, OpSub, OpMul, OpMod, OpPrintNum, OpPrintChar, OpPop,
      OpInputNum, OpInputChar, OpPush, OpDup, OpSwitch, OpMove, OpCmp, OpBranch, hpop]
    norm_num
    by_cases hba : a ≤ b
    · simp only [hba, if_true] at hf ⊢
      subst hf
      simp [hpush]
    · simp only [hba, if_false] at hf ⊢
      subst hf
      simp [hpush]

/-- C4.  For add, sub, mul and compare the step pops `a` first, then `b`, and
pushes `f`, where `f` is `b + a`, `b - a`, `b * a` (wrapped to the host's `int`)
or 1 when `b >= a` and 0 otherwise; on a stack bank holding `rest ++ [b, a]`
(bottom to top) the bank becomes `rest ++ [f]` and nothing else in the storage
changes. -/
theorem C4_operand_order (sc : Scanner) (space : Space) (cell : Cell) (s : State) (a b f : Int)
    (hfetch : fetch space s.x s.y = .ok cell)
    (hop : cell.op = OpAdd ∨ cell.op = OpSub ∨ cell.op = OpMul ∨ cell.op = OpCmp)
    (hf : f = if cell.op = OpAdd then wrapInt (b + a)
          else if cell.op = OpSub then wrapInt (b - a)
          else if cell.op = OpMul then wrapInt (b * a)
          else if b ≥ a then 1 else 0) :
    (∀ c1 c2, s.ctx.Pop = .ok (a, c1) → c1.Pop = .ok (b, c2) →
      ∃ s1, step sc space s = .ok (.running s1) ∧ c2.Push f = .ok s1.ctx ∧
        s1.out = s.out ∧ s1.stdin = s.stdin) ∧
    (∀ (i : Fin 28) (rest : List Int), bank s.ctx.curStorage = .ok i → i ≠ 21 →
      s.ctx.storage i = rest ++ [b, a] →
      ∃ s1, step sc space s = .ok (.running s1) ∧
        s1.ctx = { s.ctx with storage := Function.update s.ctx.storage i (rest ++ [f]) } ∧
        s1.out = s.out ∧ s1.stdin = s.stdin) := by
  have key : ∀ c1 c2, s.ctx.Pop = .ok (a, c1) → c1.Pop = .ok (b, c2) →
      ∃ s1, step sc space s = .ok (.running s1) ∧ c2.Push f = .ok s1.ctx ∧
        s1.out = s.out ∧ s1.stdin = s.stdin := by
    intro c1 c2 ha hb
    obtain ⟨n, hsize, hn, hpop, hpush⟩ := pop2_ok_size ha hb
    obtain ⟨c3, hc3⟩ := hpush f
    have hreq := requiredElems_binary hop
    have hex := execOp_binary sc cell { s with dir := updateDir s.dir cell } a b f c2 c3 hop hf
      hpop hc3
    refine ⟨advance space { s with dir := updateDir s.dir cell, ctx := c3 }, ?_, ?_, ?_, ?_⟩
    · have hnlt : ¬ n < 2 := by omega
      simp only [step, hfetch, stepCell, hsize, hreq, hnlt, if_false, hex]
    · simpa [advance] using hc3
    · simp [advance]
    · simp [advance]
  refine ⟨key, ?_⟩
  intro i rest hcur hi hbank
  have ha := Pop_stack s.ctx i a (rest ++ [b]) hcur hi (by simp [hbank])
  have hb := Pop_stack { s.ctx with storage := Function.update s.ctx.storage i (rest ++ [b]) } i b
    rest hcur hi (by simp)
  obtain ⟨s1, h1, h2, h3, h4⟩ := key _ _ ha hb
  refine ⟨s1, h1, ?_, h3, h4⟩
  simp only [Context.Push, Context.PushTo, hcur] at h2
  injection h2 with h2
  rw [← h2]
  simp

/-- C4 (witness).  The subtract cell decoded from U+D0C0 on bank 0 holding
`[5, 3]` leaves `[2]`, that is 5 - 3, and not `[-2]`. -/
theorem C4_operand_order_witness :
    Decode 0xD0C0 = .ok subCell ∧
    ∃ s1, step Scanner.eof (Space.single subCell)
        { State.init [] with ctx := Context.single 0 0 [5, 3] } = .ok (.running s1) ∧
      s1.ctx.storage 0 = [2] ∧ s1.ctx.storage 0 ≠ [-2] := by
  refine ⟨by rfl, ?_⟩
  obtain ⟨s1, h1, h2, _, _⟩ :=
    (C4_operand_order Scanner.eof (Space.single subCell) subCell
      { State.init [] with ctx := Context.single 0 0 [5, 3] } 3 5 2
      (by rfl) (by decide) (by decide)).2 0 [] (by rfl) (by decide) (by rfl)
  refine ⟨s1, h1, ?_, ?_⟩
  · rw [h2]; simp
  · rw [h2]; simp

/-! ## Duplicate -/

/-- C5.  `Dup` doubles, in place, the element that `Pop` would return next: the
queue bank 21 holding `v :: post` (front first) becomes `v :: v :: post`, and a
stack bank holding `pre ++ [v]` becomes `pre ++ [v, v]`; the selector and every
other bank are unchanged. -/
theorem C5_Dup_in_place (ctx : Context) (i : Fin 28) (pre post : List Int) (v : Int)
    (hcur : bank ctx.curStorage = .ok i)
    (hbank : ctx.storage i = if i = 21 then v :: post else pre ++ [v]) :
    ctx.Dup = .ok ⟨ctx.curStorage,
      Function.update ctx.storage i (if i = 21 then v :: v :: post else pre ++ [v, v])⟩ := by
  by_cases hi : i = 21
  · subst hi
    have hc : ctx.curStorage = 21 := by
      have := bank_eq_ok hcur
      simpa using this
    simp only [if_true] at hbank
    simp [Context.Dup, hc, hbank, index]
  · have hne : ctx.curStorage ≠ 21 := bank_ok_ne hcur hi
    simp only [hi, if_false] at hbank ⊢
    simp only [Context.Dup, hne, if_false, hcur, hbank, index_last, Context.Push, Context.PushTo]
    simp

/-- C5 (witness).  Bank 21 holding `[7, 2, 9]` becomes `[7, 7, 2, 9]`. -/
theorem C5_Dup_in_place_witness :
    ∃ c, (Context.single 21 21 [7, 2, 9]).Dup = .ok c ∧ c.storage 21 = [7, 7, 2, 9] ∧
      c.curStorage = 21 := by
  refine ⟨_, C5_Dup_in_place (Context.single 21 21 [7, 2, 9]) 21 [] [2, 9] 7 (by rfl) (by rfl),
    ?_, ?_⟩
  · simp
  · rfl

/-! ## Queue and stack discipline -/

theorem pushAll_bank (vs : List Int) : ∀ (ctx : Context) (i : Fin 28),
    bank ctx.curStorage = .ok i →
    pushAll ctx vs = .ok ⟨ctx.curStorage, Function.update ctx.storage i (ctx.storage i ++ vs)⟩ := by
  induction vs with
  | nil =>
    intro ctx i _
    simp [pushAll]
  | cons v vs ih =>
    intro ctx i hcur
    rw [pushAll, Push_bank ctx i v hcur]
    simp only []
    rw [ih ⟨ctx.curStorage, Function.update ctx.storage i (ctx.storage i ++ [v])⟩ i hcur]
    simp

theorem popN_queue (vs : List Int) : ∀ (ctx : Context) (rest : List Int),
    ctx.curStorage = 21 → ctx.storage 21 = vs ++ rest →
    popN vs.length ctx = .ok (vs, ⟨ctx.curStorage, Function.update ctx.storage 21 rest⟩) := by
  induction vs with
  | nil =>
    intro ctx rest _ hb
    have : Function.update ctx.storage 21 rest = ctx.storage := by
      rw [← List.nil_append rest, ← hb]; exact Function.update_eq_self 21 ctx.storage
    simp [popN, this]
  | cons v vs ih =>
    intro ctx rest hcur hb
    rw [List.length_cons, popN, Pop_queue ctx v (vs ++ rest) hcur (by simpa using hb)]
    simp only []
    rw [ih ⟨ctx.curStorage, Function.update ctx.storage 21 (vs ++ rest)⟩ rest hcur (by simp)]
    simp

theorem popN_stack (vs : List Int) : ∀ (ctx : Context) (i : Fin 28) (rest : List Int),
    bank ctx.curStorage = .ok i → i ≠ 21 → ctx.storage i = rest ++ vs →
    popN vs.length ctx =
      .ok (vs.reverse, ⟨ctx.curStorage, Function.update ctx.storage i rest⟩) := by
  induction vs using List.reverseRecOn with
  | nil =>
    intro ctx i rest _ _ hb
    have : Function.update ctx.storage i rest = ctx.storage := by
      rw [← List.append_nil rest, ← hb]; exact Function.update_eq_self i ctx.storage
    simp [popN, this]
  | append_singleton xs x ih =>
    intro ctx i rest hcur hi hb
    have hlen : (xs ++ [x]).length = xs.length + 1 := by simp
    rw [hlen, popN, Pop_stack ctx i x (rest ++ xs) hcur hi (by simpa using hb)]
    simp only []
    rw [ih ⟨ctx.curStorage, Function.update ctx.storage i (rest ++ xs)⟩ i rest hcur hi (by simp)]
    simp

/-- C6.  From an empty current bank, `Push(v1) ... Push(vn)` followed by `n`
calls of `Pop` returns `v1, ..., vn` when the current bank is 21 and
`vn, ..., v1` for every other bank; after the pushes the bank holds exactly the
pushed values, and after the pops the whole context (that bank, every other
bank and the selector) is as it was at the start. -/
theorem C6_discipline (ctx : Context) (i : Fin 28) (vs : List Int)
    (hcur : bank ctx.curStorage = .ok i) (hempty : ctx.storage i = []) :
    ∃ c, pushAll ctx vs = .ok c ∧ c.storage i = vs ∧ (∀ j, j ≠ i → c.storage j = ctx.storage j) ∧
      popN vs.length c = .ok (if i = 21 then vs else vs.reverse, ctx) := by
  have hpush := pushAll_bank vs ctx i hcur
  have hback : Function.update (Function.update ctx.storage i (ctx.storage i ++ vs)) i [] =
      ctx.storage := by
    rw [Function.update_idem, ← hempty]
    exact Function.update_eq_self i ctx.storage
  refine ⟨_, hpush, by simp [hempty], ?_, ?_⟩
  · intro j hj
    simp [Function.update_noteq hj]
  · by_cases hi : i = 21
    · subst hi
      have hc : ctx.curStorage = 21 := by simpa using bank_eq_ok hcur
      have h := popN_queue vs ⟨ctx.curStorage, Function.update ctx.storage 21 (ctx.storage 21 ++ vs)⟩
        [] hc (by simp [hempty])
      simp only [if_true]
      rw [h]
      simp only [hback]
    · have h := popN_stack vs ⟨ctx.curStorage, Function.update ctx.storage i (ctx.storage i ++ vs)⟩
        i [] hcur hi (by simp [hempty])
      simp only [hi, if_false]
      rw [h]
      simp only [hback]

/-- C6 (witness).  On bank 21 the values 1, 2, 3 come back as 1, 2, 3; the
bank is empty again afterwards. -/
theorem C6_discipline_witness :
    ∃ c, pushAll (Context.single 21 21 []) [1, 2, 3] = .ok c ∧ c.storage 21 = [1, 2, 3] ∧
      ∃ c1, popN 3 c = .ok ([1, 2, 3], c1) ∧ c1.storage 21 = [] := by
  obtain ⟨c, h1, h2, _, h4⟩ :=
    C6_discipline (Context.single 21 21 []) 21 [1, 2, 3] (by rfl) (by rfl)
  exact ⟨c, h1, h2, _, h4, by rfl⟩

/-! ## Decoder -/

theorem index_values (f : Int) (h0 : 0 ≤ f) (h1 : f < 28) : ∃ v, index values f = .ok v := by
  interval_cases f <;> exact ⟨_, rfl⟩

theorem IsHangul_iff (r : Int) : IsHangul r = true ↔ 44032 ≤ r ∧ r ≤ 55203 := by
  simp [IsHangul]

/-- The decoding of a syllable, field by field, in terms of the offset
`o = r - 0xAC00`. -/
theorem Decode_hangul (r : Int) (h : IsHangul r = true) :
    ∃ c, Decode r = .ok c ∧ c.dir = dirs ((r - 0xAC00) / 28 % 21) ∧
      (((r - 0xAC00) / 588 = 6 ∧ c.value = (r - 0xAC00) % 28 ∧
          c.op = (if (r - 0xAC00) % 28 = 21 then OpPrintNum
                  else if (r - 0xAC00) % 28 = 27 then OpPrintChar else OpPop)) ∨
       ((r - 0xAC00) / 588 = 7 ∧ (r - 0xAC00) % 28 = 21 ∧ c.value = 21 ∧ c.op = OpInputNum) ∨
       ((r - 0xAC00) / 588 = 7 ∧ (r - 0xAC00) % 28 = 27 ∧ c.value = 27 ∧ c.op = OpInputChar) ∨
       ((r - 0xAC00) / 588 = 7 ∧ (r - 0xAC00) % 28 ≠ 21 ∧ (r - 0xAC00) % 28 ≠ 27 ∧
          index values ((r - 0xAC00) % 28) = .ok c.value ∧ c.op = OpPush) ∨
       ((r - 0xAC00) / 588 ≠ 6 ∧ (r - 0xAC00) / 588 ≠ 7 ∧ c.value = (r - 0xAC00) % 28 ∧
          c.op = (r - 0xAC00) / 588)) := by
  have hr := (IsHangul_iff r).mp h
  have ho : (0 : Int) ≤ r - 44032 := by omega
  have e1 : Int.tdiv (r - 44032) 28 = (r - 44032) / 28 := Int.tdiv_eq_ediv ho (by norm_num)
  have e2 : Int.tmod (r - 44032) 28 = (r - 44032) % 28 := Int.tmod_eq_emod ho (by norm_num)
  have hq : (0 : Int) ≤ (r - 44032) / 28 := by omega
  have e3 : Int.tmod ((r - 44032) / 28) 21 = (r - 44032) / 28 % 21 :=
    Int.tmod_eq_emod hq (by norm_num)
  have e4 : Int.tdiv ((r - 44032) / 28) 21 = (r - 44032) / 588 := by
    rw [Int.tdiv_eq_ediv hq (by norm_num)]; omega
  simp only [Decode, h, if_true, e1, e2, e3, e4, OpKindPrint, OpKindInput]
  by_cases h6 : (r - 44032) / 588 = 6
  · simp only [h6, if_true]
    by_cases f21 : (r - 44032) % 28 = 21
    · simp [f21]
    · by_cases f27 : (r - 44032) % 28 = 27
      · simp [f27]
      · simp [f21, f27]
  · by_cases h7 : (r - 44032) / 588 = 7
    · have h76 : ¬ ((7 : Int) = 6) := by norm_num
      simp only [h7, h76, if_true, if_false]
      by_cases f21 : (r - 44032) % 28 = 21
      · simp [f21]
      · by_cases f27 : (r - 44032) % 28 = 27
        · simp [f27]
        · obtain ⟨v, hv⟩ := index_values ((r - 44032) % 28) (by omega) (by omega)
          simp [f21, f27, hv]
    · simp [h6, h7]

/-- C7.  For a Hangul syllable `r` with medial `m = ((r - 0xAC00) / 28) mod 21`,
`Decode` succeeds and its direction is the absolute vector (1,0), (2,0), (-1,0),
(-2,0), (0,-1), (0,-2), (0,1), (0,2) for `m` = 0, 2, 4, 6, 8, 12, 13, 17; the
flip of `dy`, of both, of `dx` for `m` = 18, 19, 20; and the zero direction with
flag `DirKeep` for each of the other ten medials. -/
theorem C7_direction_table (r m : Int) (h : IsHangul r = true)
    (hm : m = (r - 0xAC00) / 28 % 21) :
    ∃ c, Decode r = .ok c ∧ (0 ≤ m ∧ m ≤ 20) ∧
      (m = 0 → c.dir = ⟨1, 0, DirSet⟩) ∧
      (m = 2 → c.dir = ⟨2, 0, DirSet⟩) ∧
      (m = 4 → c.dir = ⟨-1, 0, DirSet⟩) ∧
      (m = 6 → c.dir = ⟨-2, 0, DirSet⟩) ∧
      (m = 8 → c.dir = ⟨0, -1, DirSet⟩) ∧
      (m = 12 → c.dir = ⟨0, -2, DirSet⟩) ∧
      (m = 13 → c.dir = ⟨0, 1, DirSet⟩) ∧
      (m = 17 → c.dir = ⟨0, 2, DirSet⟩) ∧
      (m = 18 → c.dir = ⟨0, 0, DirFlipY⟩) ∧
      (m = 19 → c.dir = ⟨0, 0, DirFlipXY⟩) ∧
      (m = 20 → c.dir = ⟨0, 0, DirFlipX⟩) ∧
      (m ∈ [1, 3, 5, 7, 9, 10, 11, 14, 15, 16] → c.dir = ⟨0, 0, DirKeep⟩) := by
  obtain ⟨c, hc, hdir, _⟩ := Decode_hangul r h
  rw [← hm] at hdir
  have hr := (IsHangul_iff r).mp h
  have hm0 : 0 ≤ m := by omega
  have hm20 : m ≤ 20 := by omega
  refine ⟨c, hc, ⟨hm0, hm20⟩, ?_⟩
  rw [hdir]
  clear hm hdir hc
  interval_cases m <;> decide

/-- C7 (witness).  U+C790 has medial 0 and decodes to the vector (1, 0). -/
theorem C7_direction_table_witness :
    ∃ c, Decode 0xC790 = .ok c ∧ c.dir = ⟨1, 0, DirSet⟩ := by
  obtain ⟨c, hc, _, h0, _⟩ := C7_direction_table 0xC790 0 (by rfl) (by decide)
  exact ⟨c, hc, h0 rfl⟩

/-- C8.  `Decode` never fails.  For a Hangul syllable `r` with initial
`i = (r - 0xAC00) / 588` and final `f = (r - 0xAC00) mod 28`: `i` lies in 0..18,
`f` in 0..27, the read `values[f]` is in range; for `i = 6` the value is `f` and
the operation is print-number (`f = 21`), print-char (`f = 27`) or plain pop;
for `i = 7` the operation is input-number (`f = 21`), input-char (`f = 27`) or
push-literal with value `values[f]`; for every other `i` the operation is `i`
and the value is `f`. -/
theorem C8_operation_decoding (r i f : Int) (h : IsHangul r = true)
    (hi : i = (r - 0xAC00) / 588) (hf : f = (r - 0xAC00) % 28) :
    (∀ r1 : Int, ∃ c1, Decode r1 = .ok c1) ∧
    (0 ≤ i ∧ i ≤ 18) ∧ (0 ≤ f ∧ f ≤ 27) ∧ (∃ v, index values f = .ok v) ∧
    ∃ c, Decode r = .ok c ∧
      (i = 6 → c.value = f ∧ (f = 21 → c.op = OpPrintNum) ∧ (f = 27 → c.op = OpPrintChar) ∧
        (f ≠ 21 → f ≠ 27 → c.op = OpPop)) ∧
      (i = 7 → (f = 21 → c.op = OpInputNum) ∧ (f = 27 → c.op = OpInputChar) ∧
        (f ≠ 21 → f ≠ 27 → c.op = OpPush ∧ index values f = .ok c.value)) ∧
      (i ≠ 6 → i ≠ 7 → c.op = i ∧ c.value = f) := by
  have hr := (IsHangul_iff r).mp h
  have htotal : ∀ r1 : Int, ∃ c1, Decode r1 = .ok c1 := by
    intro r1
    by_cases h1 : IsHangul r1 = true
    · obtain ⟨c1, hc1, _⟩ := Decode_hangul r1 h1
      exact ⟨c1, hc1⟩
    · exact ⟨Cell.zero, by simp [Decode, h1]⟩
  have hi0 : 0 ≤ i := by omega
  have hi18 : i ≤ 18 := by omega
  have hf0 : 0 ≤ f := by omega
  have hf27 : f ≤ 27 := by omega
  refine ⟨htotal, ⟨hi0, hi18⟩, ⟨hf0, hf27⟩, index_values f hf0 (by omega), ?_⟩
  obtain ⟨c, hc, _, hcases⟩ := Decode_hangul r h
  rw [← hi, ← hf] at hcases
  refine ⟨c, hc, ?_, ?_, ?_⟩
  · intro h6
    rcases hcases with ⟨_, hv, hop⟩ | ⟨h7, _⟩ | ⟨h7, _⟩ | ⟨h7, _⟩ | ⟨hn6, _⟩
    · refine ⟨hv, ?_, ?_, ?_⟩
      · intro e; simp [hop, e]
      · intro e; rw [hop, e]; decide
      · intro e1 e2; simp [hop, e1, e2]
    · omega
    · omega
    · omega
    · exact absurd h6 hn6
  · intro h7
    rcases hcases with ⟨h6, _⟩ | ⟨_, e, _, hop⟩ | ⟨_, e, _, hop⟩ | ⟨_, e1, e2, hv, hop⟩ |
      ⟨_, hn7, _⟩
    · omega
    · exact ⟨fun _ => hop, fun e2 => by omega, fun e1 _ => absurd e e1⟩
    · exact ⟨fun e1 => by omega, fun _ => hop, fun _ e2 => absurd e e2⟩
    · exact ⟨fun e => absurd e e1, fun e => absurd e e2, fun _ _ => ⟨hop, hv⟩⟩
    · exact absurd h7 hn7
  · intro hn6 hn7
    rcases hcases with ⟨h6, _⟩ | ⟨h7, _⟩ | ⟨h7, _⟩ | ⟨h7, _⟩ | ⟨_, _, hv, hop⟩
    · exact absurd h6 hn6
    · exact absurd h7 hn7
    · exact absurd h7 hn7
    · exact absurd h7 hn7
    · exact ⟨hop, hv⟩

/-- C8 (witness).  U+BC1B has initial 7 and final 7: it decodes to push-literal
with value `values[7] = 3`, not 7. -/
theorem C8_operation_decoding_witness :
    ∃ c, Decode 0xBC1B = .ok c ∧ c.op = OpPush ∧ index values 7 = .ok c.value ∧
      index values 7 = .ok 3 := by
  obtain ⟨_, _, _, _, c, hc, _, h7, _⟩ :=
    C8_operation_decoding 0xBC1B 7 7 (by rfl) (by decide) (by decide)
  have hp := (h7 rfl).2.2 (by decide) (by decide)
  exact ⟨c, hc, hp.1, hp.2, by rfl⟩

/-! ## Inert cells -/

theorem fetch_beyond_row (space : Space) (x y : Int) (row : List Cell)
    (hrow : index space.cells y = .ok row) (hx : (row.length : Int) ≤ x) :
    fetch space x y = .ok Cell.zero := by
  have : ¬ x < (row.length : Int) := by omega
  simp [fetch, hrow, this]

theorem stepCell_zero (sc : Scanner) (space : Space) (s : State) (i : Fin 28)
    (hcur : bank s.ctx.curStorage = .ok i) :
    stepCell sc space Cell.zero s = .ok (.running (advance space s)) := by
  have hdir : updateDir s.dir Cell.zero = s.dir := by
    simp [updateDir, Cell.zero, Dir.zero, DirSet, DirFlipX, DirFlipY, DirFlipXY]
  have hreq : requiredElems Cell.zero.op = 0 := by decide
  have hsize := StorageSize_of_bank hcur
  have hnlt : ¬ ((s.ctx.storage i).length : Int) < 0 := by omega
  have hex : execOp sc Cell.zero s = .ok (.running s) := by
    simp [execOp, Cell.zero, OpAdd, OpDiv, OpSub, OpMul, OpMod, OpPrintNum, OpPrintChar, OpPop,
      OpInputNum, OpInputChar, OpPush, OpDup, OpSwitch, OpMove, OpCmp, OpBranch, OpSwap, OpExit]
  simp only [stepCell, hdir, hsize, hreq, hnlt, if_false, hex]

/-- C9.  A character outside 0xAC00..0xD7A3 decodes to the no-op cell (op 0,
value 0, direction `DirKeep` with `dx = dy = 0`).  One step on the no-op cell,
or at a position whose `x` is at or beyond the length of row `y`, does not
bounce, halt or fail: the vector, the selector, the banks, the input and the
output are unchanged, and the pointer is the old pointer advanced by the
current vector, then wrapped. -/
theorem C9_inert_cells (sc : Scanner) (space : Space) (s : State) (r : Int) (i : Fin 28)
    (hr : IsHangul r = false) (hcur : bank s.ctx.curStorage = .ok i)
    (hcell : fetch space s.x s.y = .ok ⟨0, 0, ⟨0, 0, DirKeep⟩⟩ ∨
      ∃ row, index space.cells s.y = .ok row ∧ (row.length : Int) ≤ s.x) :
    Decode r = .ok ⟨0, 0, ⟨0, 0, DirKeep⟩⟩ ∧
    ∃ s1, step sc space s = .ok (.running s1) ∧
      s1.dir = s.dir ∧ s1.ctx = s.ctx ∧ s1.out = s.out ∧ s1.stdin = s.stdin ∧
      s1.x = (advance space s).x ∧ s1.y = (advance space s).y := by
  constructor
  · simp [Decode, hr, Cell.zero, Dir.zero, DirKeep]
  · have hfetch : fetch space s.x s.y = .ok Cell.zero := by
      rcases hcell with h | ⟨row, hrow, hx⟩
      · exact h
      · exact fetch_beyond_row space s.x s.y row hrow hx
    refine ⟨advance space s, ?_, ?_⟩
    · simp only [step, hfetch]
      exact stepCell_zero sc space s i hcur
    · simp [advance]

/-- C9 (witness).  A blank (U+0020) decodes to the no-op cell, and a step at
x = 3 on a grid of width 5 whose only row has one cell, moving by (1, 0), goes
to x = 4 with everything else unchanged. -/
theorem C9_inert_cells_witness :
    Decode 0x20 = .ok ⟨0, 0, ⟨0, 0, DirKeep⟩⟩ ∧
    ∃ s1, step Scanner.eof ⟨[[cmpCell]], 5, 1⟩
        { State.init [] with x := 3, dir := ⟨1, 0, DirSet⟩ } = .ok (.running s1) ∧
      s1.dir = ⟨1, 0, DirSet⟩ ∧ s1.ctx = (State.init []).ctx ∧ s1.x = 4 ∧ s1.y = 0 := by
  obtain ⟨hd, s1, h1, h2, h3, _, _, h6, h7⟩ :=
    C9_inert_cells Scanner.eof ⟨[[cmpCell]], 5, 1⟩
      { State.init [] with x := 3, dir := ⟨1, 0, DirSet⟩ } 0x20 0 (by rfl) (by rfl)
      (Or.inr ⟨[cmpCell], by rfl, by decide⟩)
  refine ⟨hd, s1, h1, h2, h3, ?_, ?_⟩
  · rw [h6]; decide
  · rw [h7]; decide

/-! ## The pointer stays inside the grid -/

theorem advance_in_bounds (space : Space) (s : State)
    (hh : 1 ≤ space.height) (hw : 1 ≤ space.width)
    (hwi : isInt space.width) (hhi : isInt space.height) :
    (0 ≤ (advance space s).x ∧ (advance space s).x < space.width) ∧
    (0 ≤ (advance space s).y ∧ (advance space s).y < space.height) := by
  unfold isInt at hwi hhi
  have e1 : wrapInt (space.width - 1) = space.width - 1 := by unfold wrapInt; omega
  have e2 : wrapInt (space.height - 1) = space.height - 1 := by unfold wrapInt; omega
  simp only [advance, e1, e2]
  constructor
  · split_ifs <;> omega
  · split_ifs <;> omega

theorem stepCell_running (sc : Scanner) (space : Space) (cell : Cell) (s s1 : State)
    (h : stepCell sc space cell s = .ok (.running s1)) : ∃ s2, s1 = advance space s2 := by
  unfold stepCell at h
  simp only at h
  split at h
  · split at h
    · injection h with h
      injection h with h
      exact ⟨_, h.symm⟩
    · split at h
      · injection h with h
        injection h with h
        exact ⟨_, h.symm⟩
      · injection h with h
        cases h
      · cases h
  · cases h

theorem step_running (sc : Scanner) (space : Space) (s s1 : State)
    (h : step sc space s = .ok (.running s1)) : ∃ s2, s1 = advance space s2 := by
  unfold step at h
  split at h
  · exact stepCell_running sc space _ s s1 h
  · cases h

theorem fetch_in_bounds (space : Space) (x y : Int)
    (hrows : (space.cells.length : Int) = space.height)
    (hx : 0 ≤ x) (hy : 0 ≤ y ∧ y < space.height) : ∃ cell, fetch space x y = .ok cell := by
  have hlt : y.toNat < space.cells.length := by omega
  have hrow : index space.cells y = .ok (space.cells[y.toNat]) := by
    simp [index, hy.1, List.getElem?_eq_getElem hlt]
  simp only [fetch, hrow]
  by_cases hxl : x < ((space.cells[y.toNat]).length : Int)
  · have hxlt : x.toNat < (space.cells[y.toNat]).length := by omega
    refine ⟨(space.cells[y.toNat])[x.toNat], ?_⟩
    simp [hxl, index, hx, List.getElem?_eq_getElem hxlt]
  · exact ⟨Cell.zero, by simp [hxl]⟩

/-- The bounds on the pointer are kept by any number of iterations. -/
theorem stepN_in_bounds (sc : Scanner) (space : Space)
    (hh : 1 ≤ space.height) (hw : 1 ≤ space.width)
    (hwi : isInt space.width) (hhi : isInt space.height) :
    ∀ (n : Nat) (s0 s : State),
      (0 ≤ s0.x ∧ s0.x < space.width) ∧ (0 ≤ s0.y ∧ s0.y < space.height) →
      stepN sc space n s0 = .ok (.running s) →
      (0 ≤ s.x ∧ s.x < space.width) ∧ (0 ≤ s.y ∧ s.y < space.height) := by
  intro n
  induction n with
  | zero =>
    intro s0 s h0 h
    simp only [stepN] at h
    injection h with h
    injection h with h
    rw [← h]
    exact h0
  | succ n ih =>
    intro s0 s _ h
    rw [stepN] at h
    split at h
    · rename_i s1 hs1
      obtain ⟨s2, hs2⟩ := step_running sc space s0 s1 hs1
      have hb := advance_in_bounds space s2 hh hw hwi hhi
      rw [← hs2] at hb
      exact ih s1 s hb h
    · rename_i r hr
      cases hstep : step sc space s0 with
      | error e => rw [hstep] at h; cases h
      | ok o =>
        cases o with
        | running s1 => exact absurd hstep (hr s1)
        | halted s1 => rw [hstep] at h; injection h with h; cases h

/-- C10.  On a grid with `height >= 1`, `width >= 1` (both Go `int`s) and
exactly `height` rows, every state in which the loop of `Execute` is about to
fetch has `0 <= x < width` and `0 <= y < height`, and the fetch at that pointer
succeeds: it does not index out of range. -/
theorem C10_pointer_in_bounds (sc : Scanner) (space : Space) (stdin : List Nat) (n : Nat)
    (s : State) (hh : 1 ≤ space.height) (hw : 1 ≤ space.width)
    (hrows : (space.cells.length : Int) = space.height)
    (hwi : isInt space.width) (hhi : isInt space.height)
    (hreach : Execute sc space stdin n = .ok (.running s)) :
    (0 ≤ s.x ∧ s.x < space.width) ∧ (0 ≤ s.y ∧ s.y < space.height) ∧
      ∃ cell, fetch space s.x s.y = .ok cell := by
  have h0 : (0 ≤ (State.init stdin).x ∧ (State.init stdin).x < space.width) ∧
      (0 ≤ (State.init stdin).y ∧ (State.init stdin).y < space.height) := by
    simp only [State.init]
    omega
  have hb := stepN_in_bounds sc space hh hw hwi hhi n (State.init stdin) s h0 hreach
  exact ⟨hb.1, hb.2, fetch_in_bounds space s.x s.y hrows hb.1.1 hb.2⟩

/-- C10 (witness).  On a row of three double-step cells the pointer goes from
x = 0 to x = 2 and, wrapping, is back at x = 0 after two steps, inside the
grid, where the fetch succeeds. -/
theorem C10_pointer_in_bounds_witness :
    Decode 0xAC38 = .ok jumpCell ∧
    ∃ s, Execute Scanner.eof jumpSpace [] 2 = .ok (.running s) ∧ s.x = 0 ∧ s.y = 0 ∧
      (0 ≤ s.x ∧ s.x < jumpSpace.width) ∧ (0 ≤ s.y ∧ s.y < jumpSpace.height) ∧
      ∃ cell, fetch jumpSpace s.x s.y = .ok cell := by
  refine ⟨by rfl, ?_⟩
  have hreach : Execute Scanner.eof jumpSpace [] 2 =
      .ok (.running { State.init [] with dir := ⟨2, 0, DirSet⟩ }) := by rfl
  have h := C10_pointer_in_bounds Scanner.eof jumpSpace [] 2
    { State.init [] with dir := ⟨2, 0, DirSet⟩ } (by decide) (by decide) (by rfl) (by decide)
    (by decide) hreach
  exact ⟨_, hreach, rfl, rfl, h.1, h.2.1, h.2.2⟩

/-! ## The wrap rule -/

/-- C11.  On a grid with `width >= 1` and `height >= 1` (both Go `int`s), when
the additions `x + dx` and `y + dy` do not overflow, the move at the label
`Next` gives the new `x` as 0 if `x + dx >= width`, `width - 1` if `x + dx < 0`,
and `x + dx` otherwise, and the new `y` likewise against `height`.  In
particular from `x = width - 1` both `dx = 1` and `dx = 2` land on `x = 0`. -/
theorem C11_wrap_rule (space : Space) (s : State)
    (hw : 1 ≤ space.width) (hh : 1 ≤ space.height)
    (hwi : isInt space.width) (hhi : isInt space.height)
    (hx : isInt (s.x + s.dir.dx)) (hy : isInt (s.y + s.dir.dy)) :
    (advance space s).x =
      (if s.x + s.dir.dx ≥ space.width then 0
       else if s.x + s.dir.dx < 0 then space.width - 1 else s.x + s.dir.dx) ∧
    (advance space s).y =
      (if s.y + s.dir.dy ≥ space.height then 0
       else if s.y + s.dir.dy < 0 then space.height - 1 else s.y + s.dir.dy) ∧
    (s.x = space.width - 1 → s.dir.dx = 1 ∨ s.dir.dx = 2 → (advance space s).x = 0) ∧
    (advance space s).dir = s.dir ∧ (advance space s).ctx = s.ctx := by
  unfold isInt at hwi hhi hx hy
  have e1 : wrapInt (space.width - 1) = space.width - 1 := by unfold wrapInt; omega
  have e2 : wrapInt (space.height - 1) = space.height - 1 := by unfold wrapInt; omega
  have e3 : wrapInt (s.x + s.dir.dx) = s.x + s.dir.dx := by unfold wrapInt; omega
  have e4 : wrapInt (s.y + s.dir.dy) = s.y + s.dir.dy := by unfold wrapInt; omega
  simp only [advance, e1, e2, e3, e4]
  refine ⟨?_, ?_, ?_, trivial, trivial⟩
  · split_ifs <;> omega
  · split_ifs <;> omega
  · intro hxw hdx
    split_ifs <;> omega

/-- C11 (witness).  On a grid of width 3 a pointer at `x = 0` moving by
`dx = -2` lands on the edge cell `x = 2` (a modular wrap would give 1). -/
theorem C11_wrap_rule_witness :
    (advance jumpSpace { State.init [] with dir := ⟨-2, 0, DirSet⟩ }).x = 2 ∧
    (advance jumpSpace { State.init [] with dir := ⟨-2, 0, DirSet⟩ }).y = 0 := by
  have h := C11_wrap_rule jumpSpace { State.init [] with dir := ⟨-2, 0, DirSet⟩ }
    (by decide) (by decide) (by decide) (by decide) (by decide) (by decide)
  exact ⟨h.1.trans (by decide), h.2.1.trans (by decide)⟩

/-! ## When the storage operations succeed -/

theorem Pop_ok_of_pos (ctx : Context) (i : Fin 28) (hcur : bank ctx.curStorage = .ok i)
    (hpos : 1 ≤ (ctx.storage i).length) :
    ∃ v c1, ctx.Pop = .ok (v, c1) ∧ bank c1.curStorage = .ok i ∧
      c1.curStorage = ctx.curStorage ∧
      (c1.storage i).length + 1 = (ctx.storage i).length ∧
      ∀ j, j ≠ i → c1.storage j = ctx.storage j := by
  have hpop : ∃ v c1, ctx.Pop = .ok (v, c1) := by
    by_cases hi : i = 21
    · subst hi
      have hc : ctx.curStorage = 21 := by simpa using bank_eq_ok hcur
      cases hb : ctx.storage 21 with
      | nil => rw [hb] at hpos; simp at hpos
      | cons v rest => exact ⟨v, _, Pop_queue ctx v rest hc hb⟩
    · rcases List.eq_nil_or_concat (ctx.storage i) with hb | ⟨rest, v, hb⟩
      · rw [hb] at hpos; simp at hpos
      · exact ⟨v, _, Pop_stack ctx i v rest hcur hi (by simpa using hb)⟩
  obtain ⟨v, c1, h⟩ := hpop
  obtain ⟨j, hj, hc1, hothers, hlen⟩ := Pop_ok_size h
  have hji : j = i := by
    rw [hcur] at hj
    injection hj with hj
    exact hj.symm
  subst hji
  exact ⟨v, c1, h, by rw [hc1]; exact hcur, hc1, hlen.symm, hothers⟩

theorem pop2_ok_of_two (ctx : Context) (i : Fin 28) (hcur : bank ctx.curStorage = .ok i)
    (htwo : 2 ≤ (ctx.storage i).length) :
    ∃ a b c1 c2, ctx.Pop = .ok (a, c1) ∧ c1.Pop = .ok (b, c2) ∧ pop2 ctx = .ok (a, b, c2) ∧
      bank c2.curStorage = .ok i ∧ c2.curStorage = ctx.curStorage := by
  obtain ⟨a, c1, ha, hb1, hc1, hl1, _⟩ := Pop_ok_of_pos ctx i hcur (by omega)
  obtain ⟨b, c2, hb, hb2, hc2, _, _⟩ := Pop_ok_of_pos c1 i hb1 (by omega)
  exact ⟨a, b, c1, c2, ha, hb, by simp [pop2, ha, hb], hb2, by rw [hc2, hc1]⟩

theorem Push_ok (ctx : Context) (i : Fin 28) (v : Int) (hcur : bank ctx.curStorage = .ok i) :
    ∃ c, ctx.Push v = .ok c ∧ c.curStorage = ctx.curStorage :=
  ⟨_, Push_bank ctx i v hcur, rfl⟩

theorem PushTo_ok (ctx : Context) (t : Int) (j : Fin 28) (v : Int) (ht : bank t = .ok j) :
    ∃ c, ctx.PushTo t v = .ok c ∧ c.curStorage = ctx.curStorage :=
  ⟨⟨ctx.curStorage, Function.update ctx.storage j (ctx.storage j ++ [v])⟩,
    by simp [Context.PushTo, ht], rfl⟩

theorem Swap_ok_of_two (ctx : Context) (i : Fin 28) (hcur : bank ctx.curStorage = .ok i)
    (htwo : 2 ≤ (ctx.storage i).length) :
    ∃ c, ctx.Swap = .ok c ∧ c.curStorage = ctx.curStorage := by
  obtain ⟨a, b, c1, c2, ha, hb, _, hb2, hc2⟩ := pop2_ok_of_two ctx i hcur htwo
  obtain ⟨c3, h3, hc3⟩ := Push_ok c2 i a hb2
  obtain ⟨c4, h4, hc4⟩ := Push_ok c3 i b (by rw [hc3]; exact hb2)
  refine ⟨c4, ?_, by rw [hc4, hc3, hc2]⟩
  simp [Context.Swap, ha, hb, h3, h4]

theorem Dup_layout (ctx : Context) (i : Fin 28) (pre post : List Int) (v : Int)
    (hcur : bank ctx.curStorage = .ok i)
    (hbank : ctx.storage i = if i = 21 then v :: post else pre ++ [v]) :
    ∃ c, ctx.Dup = .ok c ∧ c.curStorage = ctx.curStorage := by
  by_cases hi : i = 21
  · subst hi
    have hc : ctx.curStorage = 21 := by simpa using bank_eq_ok hcur
    simp only [if_true] at hbank
    exact ⟨⟨ctx.curStorage, Function.update ctx.storage 21 (v :: v :: post)⟩,
      by simp [Context.Dup, hc, hbank, index], rfl⟩
  · have hne : ctx.curStorage ≠ 21 := bank_ok_ne hcur hi
    simp only [hi, if_false] at hbank
    refine ⟨⟨ctx.curStorage, Function.update ctx.storage i (pre ++ [v] ++ [v])⟩, ?_, rfl⟩
    simp only [Context.Dup, hne, if_false, hcur, hbank, index_last, Context.Push, Context.PushTo]

theorem Dup_ok_of_pos (ctx : Context) (i : Fin 28) (hcur : bank ctx.curStorage = .ok i)
    (hpos : 1 ≤ (ctx.storage i).length) :
    ∃ c, ctx.Dup = .ok c ∧ c.curStorage = ctx.curStorage := by
  by_cases hi : i = 21
  · subst hi
    cases hb : ctx.storage 21 with
    | nil => rw [hb] at hpos; simp at hpos
    | cons v rest =>
      exact Dup_layout ctx 21 [] rest v hcur (by simp [hb])
  · rcases List.eq_nil_or_concat (ctx.storage i) with hb | ⟨rest, v, hb⟩
    · rw [hb] at hpos; simp at hpos
    · exact Dup_layout ctx i rest [] v hcur (by simp [hi, hb])

/-! ## The dispatch, case by case -/

/-- What the switch on `cell.op` does when the selector names bank `i`, the
cell's value names a bank, and bank `i` holds at least the required number of
elements: it panics only on a zero divisor, returns only on `OpExit`, and
otherwise goes on with the pointer untouched, a selector that names a bank, and
the vector kept or reversed. -/
theorem execOp_spec (sc : Scanner) (cell : Cell) (s : State) (i : Fin 28)
    (hcur : bank s.ctx.curStorage = .ok i) (hval : ∃ t, bank cell.value = .ok t)
    (hsize : requiredElems cell.op ≤ ((s.ctx.storage i).length : Int)) :
    (execOp sc cell s = .error .divideByZero ∧ (cell.op = OpDiv ∨ cell.op = OpMod)) ∨
    (execOp sc cell s = .ok (.halted s) ∧ cell.op = OpExit) ∨
    ∃ s2, execOp sc cell s = .ok (.running s2) ∧ cell.op ≠ OpExit ∧
      (∃ j, bank s2.ctx.curStorage = .ok j) ∧ s2.x = s.x ∧ s2.y = s.y ∧
      s2.out.length ≥ s.out.length ∧
      (s2.dir = s.dir ∨ s2.dir = reverse s.dir) := by
  by_cases h : cell.op = OpDiv
  · have hreq : requiredElems cell.op = 2 := by rw [h]; decide
    rw [hreq] at hsize
    obtain ⟨a, b, c1, c2, _, _, hpop, hb2, _⟩ := pop2_ok_of_two s.ctx i hcur (by omega)
    by_cases ha : a = 0
    · refine Or.inl ⟨?_, by rw [h]; decide⟩
      simp [execOp, h, OpDiv, OpAdd, OpMul, OpMod, OpPrintNum, OpPrintChar, OpPop, OpInputNum, OpInputChar, OpPush, OpDup, OpSwitch, OpMove, OpCmp, OpBranch, OpSub, OpSwap, OpExit, hpop, ha]
    · obtain ⟨c3, hpush, hc3⟩ := Push_ok c2 i (wrapInt (Int.tdiv b a)) hb2
      have hex : execOp sc cell s = .ok (.running { s with ctx := c3 }) := by
        simp [execOp, h, OpDiv, OpAdd, OpMul, OpMod, OpPrintNum, OpPrintChar, OpPop, OpInputNum, OpInputChar, OpPush, OpDup, OpSwitch, OpMove, OpCmp, OpBranch, OpSub, OpSwap, OpExit, hpop, ha, hpush]
      have hb3 : bank c3.curStorage = .ok i := by rw [hc3]; exact hb2
      refine Or.inr (Or.inr ⟨{ s with ctx := c3 }, hex, by rw [h]; decide, ⟨_, hb3⟩, rfl, rfl,
        le_refl _, Or.inl rfl⟩)
  have nOpDiv := h
  clear h
  by_cases h : cell.op = OpAdd
  · have hreq : requiredElems cell.op = 2 := by rw [h]; decide
    rw [hreq] at hsize
    obtain ⟨a, b, c1, c2, _, _, hpop, hb2, _⟩ := pop2_ok_of_two s.ctx i hcur (by omega)
    obtain ⟨c3, hpush, hc3⟩ := Push_ok c2 i (wrapInt (b + a)) hb2
    have hex : execOp sc cell s = .ok (.running { s with ctx := c3 }) :=
      execOp_binary sc cell s a b _ c2 c3 (by rw [h]; decide)
        (by rw [h]; simp [OpAdd, OpSub, OpMul, OpCmp]) hpop hpush
    have hb3 : bank c3.curStorage = .ok i := by rw [hc3]; exact hb2
    exact Or.inr (Or.inr ⟨{ s with ctx := c3 }, hex, by rw [h]; decide, ⟨_, hb3⟩, rfl, rfl,
      le_refl _, Or.inl rfl⟩)
  have nOpAdd := h
  clear h
  by_cases h : cell.op = OpMul
  · have hreq : requiredElems cell.op = 2 := by rw [h]; decide
    rw [hreq] at hsize
    obtain ⟨a, b, c1, c2, _, _, hpop, hb2, _⟩ := pop2_ok_of_two s.ctx i hcur (by omega)
    obtain ⟨c3, hpush, hc3⟩ := Push_ok c2 i (wrapInt (b * a)) hb2
    have hex : execOp sc cell s = .ok (.running { s with ctx := c3 }) :=
      execOp_binary sc cell s a b _ c2 c3 (by rw [h]; decide)
        (by rw [h]; simp [OpAdd, OpSub, OpMul, OpCmp]) hpop hpush
    have hb3 : bank c3.curStorage = .ok i := by rw [hc3]; exact hb2
    exact Or.inr (Or.inr ⟨{ s with ctx := c3 }, hex, by rw [h]; decide, ⟨_, hb3⟩, rfl, rfl,
      le_refl _, Or.inl rfl⟩)
  have nOpMul := h
  clear h
  by_cases h : cell.op = OpMod
  · have hreq : requiredElems cell.op = 2 := by rw [h]; decide
    rw [hreq] at hsize
    obtain ⟨a, b, c1, c2, _, _, hpop, hb2, _⟩ := pop2_ok_of_two s.ctx i hcur (by omega)
    by_cases ha : a = 0
    · refine Or.inl ⟨?_, by rw [h]; decide⟩
      simp [execOp, h, OpDiv, OpAdd, OpMul, OpMod, OpPrintNum, OpPrintChar, OpPop, OpInputNum, OpInputChar, OpPush, OpDup, OpSwitch, OpMove, OpCmp, OpBranch, OpSub, OpSwap, OpExit, hpop, ha]
    · obtain ⟨c3, hpush, hc3⟩ := Push_ok c2 i (Int.tmod b a) hb2
      have hex : execOp sc cell s = .ok (.running { s with ctx := c3 }) := by
        simp [execOp, h, OpDiv, OpAdd, OpMul, OpMod, OpPrintNum, OpPrintChar, OpPop, OpInputNum, OpInputChar, OpPush, OpDup, OpSwitch, OpMove, OpCmp, OpBranch, OpSub, OpSwap, OpExit, hpop, ha, hpush]
      have hb3 : bank c3.curStorage = .ok i := by rw [hc3]; exact hb2
      refine Or.inr (Or.inr ⟨{ s with ctx := c3 }, hex, by rw [h]; decide, ⟨_, hb3⟩, rfl, rfl,
        le_refl _, Or.inl rfl⟩)
  have nOpMod := h
  clear h
  by_cases h : cell.op = OpPrintNum
  · have hreq : requiredElems cell.op = 1 := by rw [h]; decide
    rw [hreq] at hsize
    obtain ⟨v, c1, hpop, hb1, _, _, _⟩ := Pop_ok_of_pos s.ctx i hcur (by omega)
    have hex : execOp sc cell s =
        .ok (.running { s with ctx := c1, out := s.out ++ fmtD v }) := by
      simp [execOp, h, OpDiv, OpAdd, OpMul, OpMod, OpPrintNum, OpPrintChar, OpPop, OpInputNum, OpInputChar, OpPush, OpDup, OpSwitch, OpMove, OpCmp, OpBranch, OpSub, OpSwap, OpExit, hpop]
    exact Or.inr (Or.inr ⟨_, hex, by rw [h]; decide, ⟨_, hb1⟩, rfl, rfl,
      by simp [String.length_append], Or.inl rfl⟩)
  have nOpPrintNum := h
  clear h
  by_cases h : cell.op = OpPrintChar
  · have hreq : requiredElems cell.op = 1 := by rw [h]; decide
    rw [hreq] at hsize
    obtain ⟨v, c1, hpop, hb1, _, _, _⟩ := Pop_ok_of_pos s.ctx i hcur (by omega)
    have hex : execOp sc cell s =
        .ok (.running { s with ctx := c1, out := s.out.push (fmtC v) }) := by
      simp [execOp, h, OpDiv, OpAdd, OpMul, OpMod, OpPrintNum, OpPrintChar, OpPop, OpInputNum, OpInputChar, OpPush, OpDup, OpSwitch, OpMove, OpCmp, OpBranch, OpSub, OpSwap, OpExit, hpop]
    exact Or.inr (Or.inr ⟨_, hex, by rw [h]; decide, ⟨_, hb1⟩, rfl, rfl,
      by simp [String.length_push], Or.inl rfl⟩)
  have nOpPrintChar := h
  clear h
  by_cases h : cell.op = OpPop
  · have hreq : requiredElems cell.op = 1 := by rw [h]; decide
    rw [hreq] at hsize
    obtain ⟨v, c1, hpop, hb1, _, _, _⟩ := Pop_ok_of_pos s.ctx i hcur (by omega)
    have hex : execOp sc cell s = .ok (.running { s with ctx := c1 }) := by
      simp [execOp, h, OpDiv, OpAdd, OpMul, OpMod, OpPrintNum, OpPrintChar, OpPop, OpInputNum, OpInputChar, OpPush, OpDup, OpSwitch, OpMove, OpCmp, OpBranch, OpSub, OpSwap, OpExit, hpop]
    exact Or.inr (Or.inr ⟨_, hex, by rw [h]; decide, ⟨_, hb1⟩, rfl, rfl, le_refl _, Or.inl rfl⟩)
  have nOpPop := h
  clear h
  by_cases h : cell.op = OpInputNum
  · obtain ⟨c3, hpush, hc3⟩ := Push_ok s.ctx i (sc.scanNum s.stdin).1 hcur
    have hex : execOp sc cell s =
        .ok (.running { s with ctx := c3, stdin := (sc.scanNum s.stdin).2 }) := by
      simp [execOp, h, OpDiv, OpAdd, OpMul, OpMod, OpPrintNum, OpPrintChar, OpPop, OpInputNum, OpInputChar, OpPush, OpDup, OpSwitch, OpMove, OpCmp, OpBranch, OpSub, OpSwap, OpExit, hpush]
    have hb3 : bank c3.curStorage = .ok i := by rw [hc3]; exact hcur
    exact Or.inr (Or.inr ⟨_, hex, by rw [h]; decide, ⟨_, hb3⟩, rfl, rfl, le_refl _, Or.inl rfl⟩)
  have nOpInputNum := h
  clear h
  by_cases h : cell.op = OpInputChar
  · obtain ⟨c3, hpush, hc3⟩ := Push_ok s.ctx i (sc.scanChar s.stdin).1 hcur
    have hex : execOp sc cell s =
        .ok (.running { s with ctx := c3, stdin := (sc.scanChar s.stdin).2 }) := by
      simp [execOp, h, OpDiv, OpAdd, OpMul, OpMod, OpPrintNum, OpPrintChar, OpPop, OpInputNum, OpInputChar, OpPush, OpDup, OpSwitch, OpMove, OpCmp, OpBranch, OpSub, OpSwap, OpExit, hpush]
    have hb3 : bank c3.curStorage = .ok i := by rw [hc3]; exact hcur
    exact Or.inr (Or.inr ⟨_, hex, by rw [h]; decide, ⟨_, hb3⟩, rfl, rfl, le_refl _, Or.inl rfl⟩)
  have nOpInputChar := h
  clear h
  by_cases h : cell.op = OpPush
  · obtain ⟨c3, hpush, hc3⟩ := Push_ok s.ctx i cell.value hcur
    have hex : execOp sc cell s = .ok (.running { s with ctx := c3 }) := by
      simp [execOp, h, OpDiv, OpAdd, OpMul, OpMod, OpPrintNum, OpPrintChar, OpPop, OpInputNum, OpInputChar, OpPush, OpDup, OpSwitch, OpMove, OpCmp, OpBranch, OpSub, OpSwap, OpExit, hpush]
    have hb3 : bank c3.curStorage = .ok i := by rw [hc3]; exact hcur
    exact Or.inr (Or.inr ⟨_, hex, by rw [h]; decide, ⟨_, hb3⟩, rfl, rfl, le_refl _, Or.inl rfl⟩)
  have nOpPush := h
  clear h
  by_cases h : cell.op = OpDup
  · have hreq : requiredElems cell.op = 1 := by rw [h]; decide
    rw [hreq] at hsize
    obtain ⟨c3, hdup, hc3⟩ := Dup_ok_of_pos s.ctx i hcur (by omega)
    have hex : execOp sc cell s = .ok (.running { s with ctx := c3 }) := by
      simp [execOp, h, OpDiv, OpAdd, OpMul, OpMod, OpPrintNum, OpPrintChar, OpPop, OpInputNum, OpInputChar, OpPush, OpDup, OpSwitch, OpMove, OpCmp, OpBranch, OpSub, OpSwap, OpExit, hdup]
    have hb3 : bank c3.curStorage = .ok i := by rw [hc3]; exact hcur
    exact Or.inr (Or.inr ⟨_, hex, by rw [h]; decide, ⟨_, hb3⟩, rfl, rfl, le_refl _, Or.inl rfl⟩)
  have nOpDup := h
  clear h
  by_cases h : cell.op = OpSwitch
  · obtain ⟨t, ht⟩ := hval
    have hex : execOp sc cell s =
        .ok (.running { s with ctx := s.ctx.SetStorage cell.value }) := by
      simp [execOp, h, OpDiv, OpAdd, OpMul, OpMod, OpPrintNum, OpPrintChar, OpPop, OpInputNum, OpInputChar, OpPush, OpDup, OpSwitch, OpMove, OpCmp, OpBranch, OpSub, OpSwap, OpExit]
    exact Or.inr (Or.inr ⟨_, hex, by rw [h]; decide, ⟨t, ht⟩, rfl, rfl, le_refl _, Or.inl rfl⟩)
  have nOpSwitch := h
  clear h
  by_cases h : cell.op = OpMove
  · have hreq : requiredElems cell.op = 1 := by rw [h]; decide
    rw [hreq] at hsize
    obtain ⟨v, c1, hpop, hb1, _, _, _⟩ := Pop_ok_of_pos s.ctx i hcur (by omega)
    obtain ⟨t, ht⟩ := hval
    obtain ⟨c3, hpush, hc3⟩ := PushTo_ok c1 cell.value t v ht
    have hex : execOp sc cell s = .ok (.running { s with ctx := c3 }) := by
      simp [execOp, h, OpDiv, OpAdd, OpMul, OpMod, OpPrintNum, OpPrintChar, OpPop, OpInputNum, OpInputChar, OpPush, OpDup, OpSwitch, OpMove, OpCmp, OpBranch, OpSub, OpSwap, OpExit, hpop, hpush]
    have hb3 : bank c3.curStorage = .ok i := by rw [hc3]; exact hb1
    exact Or.inr (Or.inr ⟨_, hex, by rw [h]; decide, ⟨_, hb3⟩, rfl, rfl, le_refl _, Or.inl rfl⟩)
  have nOpMove := h
  clear h
  by_cases h : cell.op = OpCmp
  · have hreq : requiredElems cell.op = 2 := by rw [h]; decide
    rw [hreq] at hsize
    obtain ⟨a, b, c1, c2, _, _, hpop, hb2, _⟩ := pop2_ok_of_two s.ctx i hcur (by omega)
    obtain ⟨c3, hpush, hc3⟩ := Push_ok c2 i (if b ≥ a then 1 else 0) hb2
    have hex : execOp sc cell s = .ok (.running { s with ctx := c3 }) :=
      execOp_binary sc cell s a b _ c2 c3 (by rw [h]; decide)
        (by rw [h]; simp [OpAdd, OpSub, OpMul, OpCmp]) hpop hpush
    have hb3 : bank c3.curStorage = .ok i := by rw [hc3]; exact hb2
    exact Or.inr (Or.inr ⟨{ s with ctx := c3 }, hex, by rw [h]; decide, ⟨_, hb3⟩, rfl, rfl,
      le_refl _, Or.inl rfl⟩)
  have nOpCmp := h
  clear h
  by_cases h : cell.op = OpBranch
  · have hreq : requiredElems cell.op = 1 := by rw [h]; decide
    rw [hreq] at hsize
    obtain ⟨v, c1, hpop, hb1, _, _, _⟩ := Pop_ok_of_pos s.ctx i hcur (by omega)
    by_cases hv : v = 0
    · have hex : execOp sc cell s =
          .ok (.running { s with ctx := c1, dir := reverse s.dir }) := by
        simp [execOp, h, OpDiv, OpAdd, OpMul, OpMod, OpPrintNum, OpPrintChar, OpPop, OpInputNum, OpInputChar, OpPush, OpDup, OpSwitch, OpMove, OpCmp, OpBranch, OpSub, OpSwap, OpExit, hpop, hv]
      exact Or.inr (Or.inr ⟨_, hex, by rw [h]; decide, ⟨_, hb1⟩, rfl, rfl, le_refl _,
        Or.inr rfl⟩)
    · have hex : execOp sc cell s = .ok (.running { s with ctx := c1 }) := by
        simp [execOp, h, OpDiv, OpAdd, OpMul, OpMod, OpPrintNum, OpPrintChar, OpPop, OpInputNum, OpInputChar, OpPush, OpDup, OpSwitch, OpMove, OpCmp, OpBranch, OpSub, OpSwap, OpExit, hpop, hv]
      exact Or.inr (Or.inr ⟨_, hex, by rw [h]; decide, ⟨_, hb1⟩, rfl, rfl, le_refl _,
        Or.inl rfl⟩)
  have nOpBranch := h
  clear h
  by_cases h : cell.op = OpSub
  · have hreq : requiredElems cell.op = 2 := by rw [h]; decide
    rw [hreq] at hsize
    obtain ⟨a, b, c1, c2, _, _, hpop, hb2, _⟩ := pop2_ok_of_two s.ctx i hcur (by omega)
    obtain ⟨c3, hpush, hc3⟩ := Push_ok c2 i (wrapInt (b - a)) hb2
    have hex : execOp sc cell s = .ok (.running { s with ctx := c3 }) :=
      execOp_binary sc cell s a b _ c2 c3 (by rw [h]; decide)
        (by rw [h]; simp [OpAdd, OpSub, OpMul, OpCmp]) hpop hpush
    have hb3 : bank c3.curStorage = .ok i := by rw [hc3]; exact hb2
    exact Or.inr (Or.inr ⟨{ s with ctx := c3 }, hex, by rw [h]; decide, ⟨_, hb3⟩, rfl, rfl,
      le_refl _, Or.inl rfl⟩)
  have nOpSub := h
  clear h
  by_cases h : cell.op = OpSwap
  · have hreq : requiredElems cell.op = 2 := by rw [h]; decide
    rw [hreq] at hsize
    obtain ⟨c3, hswap, hc3⟩ := Swap_ok_of_two s.ctx i hcur (by omega)
    have hex : execOp sc cell s = .ok (.running { s with ctx := c3 }) := by
      simp [execOp, h, OpDiv, OpAdd, OpMul, OpMod, OpPrintNum, OpPrintChar, OpPop, OpInputNum, OpInputChar, OpPush, OpDup, OpSwitch, OpMove, OpCmp, OpBranch, OpSub, OpSwap, OpExit, hswap]
    have hb3 : bank c3.curStorage = .ok i := by rw [hc3]; exact hcur
    exact Or.inr (Or.inr ⟨_, hex, by rw [h]; decide, ⟨_, hb3⟩, rfl, rfl, le_refl _, Or.inl rfl⟩)
  have nOpSwap := h
  clear h
  by_cases h : cell.op = OpExit
  · refine Or.inr (Or.inl ⟨?_, h⟩)
    simp [execOp, h, OpDiv, OpAdd, OpMul, OpMod, OpPrintNum, OpPrintChar, OpPop, OpInputNum, OpInputChar, OpPush, OpDup, OpSwitch, OpMove, OpCmp, OpBranch, OpSub, OpSwap, OpExit]
  have nOpExit := h
  clear h
  have hex : execOp sc cell s = .ok (.running s) := by
    simp only [execOp, nOpDiv, nOpAdd, nOpMul, nOpMod, nOpPrintNum, nOpPrintChar, nOpPop, nOpInputNum, nOpInputChar, nOpPush, nOpDup, nOpSwitch, nOpMove, nOpCmp, nOpBranch, nOpSub, nOpSwap, nOpExit, if_false]
  exact Or.inr (Or.inr ⟨s, hex, nOpExit, ⟨i, hcur⟩, rfl, rfl, le_refl _, Or.inl rfl⟩)

/-! ## The selector always names a bank -/

theorem bank_of_range {t : Int} (h0 : 0 ≤ t) (h27 : t ≤ 27) : ∃ j, bank t = .ok j := by
  have h : 0 ≤ t ∧ t < 28 := ⟨h0, by omega⟩
  exact ⟨⟨t.toNat, by omega⟩, by simp [bank, h]⟩

theorem bank_range {t : Int} {j : Fin 28} (h : bank t = .ok j) : 0 ≤ t ∧ t ≤ 27 := by
  have := bank_eq_ok h
  have := j.isLt
  omega

theorem index_values_range (f v : Int) (h0 : 0 ≤ f) (h1 : f < 28)
    (hv : index values f = .ok v) : 0 ≤ v ∧ v ≤ 9 := by
  interval_cases f <;> simp [index, values] at hv <;> omega

/-- The value of a decoded cell lies in 0..27, whatever the character. -/
theorem Decode_value_range (r : Int) (c : Cell) (h : Decode r = .ok c) :
    0 ≤ c.value ∧ c.value ≤ 27 := by
  by_cases hr : IsHangul r = true
  · obtain ⟨c1, hc1, _, hcases⟩ := Decode_hangul r hr
    rw [h] at hc1
    injection hc1 with hc1
    subst hc1
    have hrange := (IsHangul_iff r).mp hr
    rcases hcases with ⟨_, hv, _⟩ | ⟨_, _, hv, _⟩ | ⟨_, _, hv, _⟩ | ⟨_, _, _, hv, _⟩ | ⟨_, _, hv, _⟩
    · omega
    · omega
    · omega
    · have := index_values_range _ _ (by omega) (by omega) hv
      omega
    · omega
  · simp only [Decode, hr] at h
    injection h with h
    subst h
    decide

theorem fetch_mem (space : Space) (x y : Int) (cell : Cell) (h : fetch space x y = .ok cell) :
    cell = Cell.zero ∨ ∃ row ∈ space.cells, cell ∈ row := by
  have index_mem : ∀ {α : Type} (xs : List α) (k : Int) (v : α), index xs k = .ok v → v ∈ xs := by
    intro α xs k v hk
    unfold index at hk
    split at hk
    · split at hk
      · rename_i w hw
        injection hk with hk
        subst hk
        exact List.getElem?_mem hw
      · cases hk
    · cases hk
  unfold fetch at h
  split at h
  · rename_i row hrow
    split at h
    · exact Or.inr ⟨row, index_mem _ _ _ hrow, index_mem _ _ _ h⟩
    · injection h with h
      exact Or.inl h.symm
  · cases h

theorem fetch_decoded (space : Space) (hdec : space.decoded) (x y : Int) (cell : Cell)
    (h : fetch space x y = .ok cell) : ∃ r, Decode r = .ok cell := by
  rcases fetch_mem space x y cell h with h0 | ⟨row, hrow, hc⟩
  · exact ⟨0, by rw [h0]; rfl⟩
  · exact hdec row hrow cell hc

/-- One iteration on a cell whose value names a bank keeps the selector in
range, whether the loop goes on or returns. -/
theorem stepCell_selector (sc : Scanner) (space : Space) (cell : Cell) (s : State) (o : Outcome)
    (hcur : ∃ i, bank s.ctx.curStorage = .ok i) (hval : ∃ t, bank cell.value = .ok t)
    (h : stepCell sc space cell s = .ok o) : ∃ j, bank o.state.ctx.curStorage = .ok j := by
  obtain ⟨i, hi⟩ := hcur
  have hsize : ({ s with dir := updateDir s.dir cell } : State).ctx.StorageSize =
      .ok ((s.ctx.storage i).length : Int) := StorageSize_of_bank hi
  simp only [stepCell, hsize] at h
  by_cases hlt : ((s.ctx.storage i).length : Int) < requiredElems cell.op
  · simp only [hlt, if_true] at h
    injection h with h
    subst h
    exact ⟨i, hi⟩
  · simp only [hlt, if_false] at h
    rcases execOp_spec sc cell { s with dir := updateDir s.dir cell } i hi hval
        (show requiredElems cell.op ≤ ((s.ctx.storage i).length : Int) by omega) with
      ⟨hex, _⟩ | ⟨hex, _⟩ | ⟨s2, hex, _, hb, _⟩
    · rw [hex] at h; cases h
    · rw [hex] at h
      injection h with h
      subst h
      exact ⟨i, hi⟩
    · rw [hex] at h
      injection h with h
      subst h
      exact hb

theorem stepN_invariant (sc : Scanner) (space : Space) (P : State → Prop)
    (hstep : ∀ s o, P s → step sc space s = .ok o → P o.state) :
    ∀ (n : Nat) (s0 : State) (o : Outcome), P s0 → stepN sc space n s0 = .ok o → P o.state := by
  intro n
  induction n with
  | zero =>
    intro s0 o h0 h
    simp only [stepN] at h
    injection h with h
    subst h
    exact h0
  | succ n ih =>
    intro s0 o h0 h
    rw [stepN] at h
    cases hstep0 : step sc space s0 with
    | error e => rw [hstep0] at h; cases h
    | ok o1 =>
      cases o1 with
      | running s1 =>
        rw [hstep0] at h
        exact ih s1 o (hstep s0 _ h0 hstep0) h
      | halted s1 =>
        rw [hstep0] at h
        injection h with h
        subst h
        exact hstep s0 _ h0 hstep0

/-- C12.  On a grid whose cells all come from `Decode`, the selector is 0 at
the start and lies in 0..27 after any number of iterations, whether the loop is
still running or has returned; and the value of every move-to-bank cell that is
fetched lies in 0..27, so both indices into the 28-element array are in
range. -/
theorem C12_selector_in_range (sc : Scanner) (space : Space) (stdin : List Nat) (n : Nat)
    (o : Outcome) (hdec : space.decoded) (hreach : Execute sc space stdin n = .ok o) :
    (State.init stdin).ctx.curStorage = 0 ∧
    (0 ≤ o.state.ctx.curStorage ∧ o.state.ctx.curStorage ≤ 27) ∧
    (∃ j, bank o.state.ctx.curStorage = .ok j) ∧
    ∀ cell, fetch space o.state.x o.state.y = .ok cell → cell.op = OpMove →
      (0 ≤ cell.value ∧ cell.value ≤ 27) ∧ ∃ t, bank cell.value = .ok t := by
  have hinv : ∃ j, bank o.state.ctx.curStorage = .ok j := by
    refine stepN_invariant sc space (fun s => ∃ j, bank s.ctx.curStorage = .ok j) ?_ n
      (State.init stdin) o ⟨0, by rfl⟩ hreach
    intro s o1 hs h1
    unfold step at h1
    split at h1
    · rename_i cell hcell
      obtain ⟨r, hr⟩ := fetch_decoded space hdec s.x s.y cell hcell
      have hv := Decode_value_range r cell hr
      exact stepCell_selector sc space cell s o1 hs (bank_of_range hv.1 hv.2) h1
    · cases h1
  obtain ⟨j, hj⟩ := hinv
  refine ⟨rfl, bank_range hj, ⟨j, hj⟩, ?_⟩
  intro cell hcell _
  obtain ⟨r, hr⟩ := fetch_decoded space hdec _ _ cell hcell
  have hv := Decode_value_range r cell hr
  exact ⟨hv, bank_of_range hv.1 hv.2⟩

/-- C12 (witness).  The select-bank cell decoded from U+C0AD, alone on a grid,
leaves the selector at 1 after one step. -/
theorem C12_selector_in_range_witness :
    Decode 0xC0AD = .ok switchCell ∧
    ∃ o, Execute Scanner.eof (Space.single switchCell) [] 1 = .ok o ∧
      o.state.ctx.curStorage = 1 ∧ ∃ j, bank o.state.ctx.curStorage = .ok j := by
  have hdec : (Space.single switchCell).decoded := by
    intro row hrow c hc
    simp only [Space.single, List.mem_singleton] at hrow
    subst hrow
    simp only [List.mem_singleton] at hc
    subst hc
    exact ⟨0xC0AD, by rfl⟩
  have hreach : Execute Scanner.eof (Space.single switchCell) [] 1 =
      .ok (.running { State.init [] with dir := ⟨1, 0, DirSet⟩, ctx := ⟨1, fun _ => []⟩ }) := by
    rfl
  have h := C12_selector_in_range Scanner.eof (Space.single switchCell) [] 1 _ hdec hreach
  exact ⟨by rfl, _, hreach, rfl, h.2.2.1⟩

/-! ## Move to another bank -/

theorem total_update (f : Fin 28 → List Int) (i : Fin 28) (l : List Int) :
    (Finset.univ.sum fun j => (Function.update f i l j).length) + (f i).length =
      (Finset.univ.sum fun j => (f j).length) + l.length := by
  have hfun : (fun j => (Function.update f i l j).length) =
      Function.update (fun j => (f j).length) i l.length := by
    funext j
    by_cases h : j = i
    · subst h; simp
    · simp [h]
  rw [hfun, Finset.sum_update_of_mem (Finset.mem_univ i),
    Finset.sum_eq_sum_diff_singleton_add (Finset.mem_univ i) (fun j => (f j).length)]
  omega

/-- C13.  With the selector on a non-empty bank `i` whose next-to-pop element
is `v`, a move-to-bank cell whose value names bank `t` is not bounced; its
operation pops `v` from bank `i` and appends it to the tail of bank `t`, leaves
the vector as the cell's direction field set it, and leaves the selector, the
input, the output and every bank other than `i` and `t` unchanged.  The total
number of stored elements is preserved; when `t = i` a stack bank is unchanged
and the queue bank is rotated by one. -/
theorem C13_move_to_bank (sc : Scanner) (space : Space) (cell : Cell) (s : State)
    (i t : Fin 28) (pre post : List Int) (v : Int)
    (hfetch : fetch space s.x s.y = .ok cell) (hop : cell.op = OpMove)
    (hcur : bank s.ctx.curStorage = .ok i) (ht : bank cell.value = .ok t)
    (hbank : s.ctx.storage i = if i = 21 then v :: post else pre ++ [v]) :
    ∃ s1 s2 c1, s.ctx.Pop = .ok (v, c1) ∧
      c1.storage = Function.update s.ctx.storage i (if i = 21 then post else pre) ∧
      execOp sc cell { s with dir := updateDir s.dir cell } = .ok (.running s2) ∧
      s2.dir = updateDir s.dir cell ∧
      step sc space s = .ok (.running s1) ∧ s1 = advance space s2 ∧
      s1.dir = updateDir s.dir cell ∧
      s1.ctx.storage = Function.update c1.storage t (c1.storage t ++ [v]) ∧
      s1.ctx.curStorage = s.ctx.curStorage ∧ s1.out = s.out ∧ s1.stdin = s.stdin ∧
      (∀ j, j ≠ i → j ≠ t → s1.ctx.storage j = s.ctx.storage j) ∧
      s1.ctx.total = s.ctx.total ∧
      (t = i → i ≠ 21 → s1.ctx.storage = s.ctx.storage) ∧
      (t = i → i = 21 → s1.ctx.storage i = post ++ [v]) := by
  have hpop : s.ctx.Pop = .ok (v, ⟨s.ctx.curStorage,
      Function.update s.ctx.storage i (if i = 21 then post else pre)⟩) := by
    by_cases hi : i = 21
    · subst hi
      have hc : s.ctx.curStorage = 21 := by simpa using bank_eq_ok hcur
      simp only [if_true] at hbank ⊢
      exact Pop_queue s.ctx v post hc hbank
    · simp only [hi, if_false] at hbank ⊢
      exact Pop_stack s.ctx i v pre hcur hi hbank
  have hlen : (s.ctx.storage i).length =
      (if i = 21 then post else pre).length + 1 := by
    rw [hbank]; split_ifs <;> simp
  have hsize : ({ s with dir := updateDir s.dir cell } : State).ctx.StorageSize =
      .ok ((s.ctx.storage i).length : Int) := StorageSize_of_bank hcur
  have hreq : requiredElems cell.op = 1 := by rw [hop]; decide
  have hnlt : ¬ ((s.ctx.storage i).length : Int) < 1 := by omega
  have hex : execOp sc cell { s with dir := updateDir s.dir cell } =
      .ok (.running { s with dir := updateDir s.dir cell, ctx := ⟨s.ctx.curStorage,
        Function.update (Function.update s.ctx.storage i (if i = 21 then post else pre)) t
          (Function.update s.ctx.storage i (if i = 21 then post else pre) t ++ [v])⟩ }) := by
    simp [execOp, hop, OpDiv, OpAdd, OpMul, OpMod, OpPrintNum, OpPrintChar, OpPop, OpInputNum,
      OpInputChar, OpPush, OpDup, OpSwitch, OpMove, hpop, Context.PushTo, ht]
  refine ⟨_, _, _, hpop, rfl, hex, rfl, ?_, rfl, rfl, rfl, rfl, rfl, rfl, ?_, ?_, ?_, ?_⟩
  · simp only [step, hfetch, stepCell, hsize, hreq, hnlt, if_false, hex]
  · intro j hji hjt
    simp [advance, Function.update_noteq hjt, Function.update_noteq hji]
  · have h1 := total_update (Function.update s.ctx.storage i (if i = 21 then post else pre)) t
      (Function.update s.ctx.storage i (if i = 21 then post else pre) t ++ [v])
    have h2 := total_update s.ctx.storage i (if i = 21 then post else pre)
    simp only [List.length_append, List.length_singleton] at h1
    simp only [Context.total, advance]
    omega
  · intro hti hi
    subst hti
    simp only [hi, if_false] at hbank ⊢
    simp only [advance, Function.update_same, Function.update_idem, ← hbank]
    exact Function.update_eq_self t s.ctx.storage
  · intro hti hi
    subst hti
    simp [advance, hi]

/-- C13 (witness).  With banks 0 = `[4, 9]` and the selector on 0, the cell
decoded from U+C2F9 moves 9 to bank 1: bank 0 is `[4]`, bank 1 is `[9]`. -/
theorem C13_move_to_bank_witness :
    Decode 0xC2F9 = .ok moveCell ∧
    ∃ s1, step Scanner.eof (Space.single moveCell)
        { State.init [] with ctx := Context.single 0 0 [4, 9] } = .ok (.running s1) ∧
      s1.ctx.storage 0 = [4] ∧ s1.ctx.storage 1 = [9] ∧ s1.ctx.curStorage = 0 ∧
      s1.ctx.total = 2 := by
  obtain ⟨s1, s2, c1, _, hc1, _, _, hstep, _, _, hst, hcur, _, _, _, htot, _, _⟩ :=
    C13_move_to_bank Scanner.eof (Space.single moveCell) moveCell
      { State.init [] with ctx := Context.single 0 0 [4, 9] } 0 1 [4] [] 9
      (by rfl) (by rfl) (by rfl) (by rfl) (by rfl)
  refine ⟨by rfl, s1, hstep, ?_, ?_, hcur, ?_⟩
  · rw [hst, hc1]; rfl
  · rw [hst, hc1]; rfl
  · rw [htot]; rfl

/-! ## Swap on a stack bank -/

theorem Swap_stack (ctx : Context) (i : Fin 28) (rest : List Int) (x y : Int)
    (hcur : bank ctx.curStorage = .ok i) (hi : i ≠ 21) (hb : ctx.storage i = rest ++ [x, y]) :
    ctx.Swap = .ok ⟨ctx.curStorage, Function.update ctx.storage i (rest ++ [y, x])⟩ := by
  have h1 := Pop_stack ctx i y (rest ++ [x]) hcur hi (by simp [hb])
  have h2 := Pop_stack ⟨ctx.curStorage, Function.update ctx.storage i (rest ++ [x])⟩ i x rest
    hcur hi (by simp)
  simp only [Context.Swap, h1, h2, Context.Push, Context.PushTo, hcur]
  simp

/-- C14.  On a stack bank holding `rest ++ [x, y]` (bottom to top) `Swap`
yields `rest ++ [y, x]`; the selector and all other banks are unchanged, and a
second `Swap` restores the context. -/
theorem C14_Swap_stack_exchanges (ctx : Context) (i : Fin 28) (rest : List Int) (x y : Int)
    (hcur : bank ctx.curStorage = .ok i) (hi : i ≠ 21) (hb : ctx.storage i = rest ++ [x, y]) :
    ∃ c, ctx.Swap = .ok c ∧ c.storage i = rest ++ [y, x] ∧
      c.curStorage = ctx.curStorage ∧ (∀ j, j ≠ i → c.storage j = ctx.storage j) ∧
      c.Swap = .ok ctx := by
  refine ⟨_, Swap_stack ctx i rest x y hcur hi hb, by simp, rfl, ?_, ?_⟩
  · intro j hj
    simp [Function.update_noteq hj]
  · rw [Swap_stack ⟨ctx.curStorage, Function.update ctx.storage i (rest ++ [y, x])⟩ i rest y x
      hcur hi (by simp)]
    simp only [Function.update_idem, ← hb]
    rw [Function.update_eq_self]

/-- C14 (witness).  Bank 0 holding `[1, 2, 3]` becomes `[1, 3, 2]`, and a second
`Swap` gives `[1, 2, 3]` back. -/
theorem C14_Swap_stack_exchanges_witness :
    ∃ c, (Context.single 0 0 [1, 2, 3]).Swap = .ok c ∧ c.storage 0 = [1, 3, 2] ∧
      ∃ c1, c.Swap = .ok c1 ∧ c1.storage 0 = [1, 2, 3] := by
  obtain ⟨c, h1, h2, _, _, h5⟩ :=
    C14_Swap_stack_exchanges (Context.single 0 0 [1, 2, 3]) 0 [1] 2 3 (by rfl) (by decide)
      (by rfl)
  exact ⟨c, h1, h2, _, h5, by rfl⟩

/-! ## Division and modulo -/

theorem neg_tmod (b a : Int) : Int.tmod (-b) a = -(Int.tmod b a) := by
  rw [Int.tmod_def, Int.neg_tdiv, Int.tmod_def]
  ring

theorem tmod_bounds_pos (b a : Int) (ha : 0 < a) :
    (0 ≤ b → 0 ≤ Int.tmod b a ∧ Int.tmod b a < a) ∧
    (b ≤ 0 → -a < Int.tmod b a ∧ Int.tmod b a ≤ 0) := by
  constructor
  · intro hb
    exact ⟨Int.tmod_nonneg a hb, Int.tmod_lt_of_pos b ha⟩
  · intro hb
    have h1 : 0 ≤ Int.tmod (-b) a := Int.tmod_nonneg a (by omega)
    have h2 : Int.tmod (-b) a < a := Int.tmod_lt_of_pos (-b) ha
    rw [neg_tmod] at h1 h2
    omega

/-- The remainder of Go's `%`: smaller than the divisor in absolute value,
with the sign of the dividend. -/
theorem tmod_bounds (b a : Int) (ha : a ≠ 0) :
    |Int.tmod b a| < |a| ∧ (0 ≤ b → 0 ≤ Int.tmod b a) ∧ (b ≤ 0 → Int.tmod b a ≤ 0) := by
  have key : ∀ p : Int, 0 < p → |Int.tmod b p| < p ∧ (0 ≤ b → 0 ≤ Int.tmod b p) ∧
      (b ≤ 0 → Int.tmod b p ≤ 0) := by
    intro p hp
    have h := tmod_bounds_pos b p hp
    refine ⟨?_, fun hb => (h.1 hb).1, fun hb => (h.2 hb).2⟩
    rw [abs_lt]
    rcases le_total 0 b with hb | hb
    · have := h.1 hb; omega
    · have := h.2 hb; omega
  rcases lt_or_gt_of_ne ha with hneg | hpos
  · have h := key (-a) (by omega)
    rw [Int.tmod_neg] at h
    rw [abs_of_neg hneg]
    exact h
  · have h := key a hpos
    rw [abs_of_pos hpos]
    exact h

/-- The quotient of Go's `/` is never further from zero than the exact
quotient. -/
theorem tdiv_mul_abs_le (b a : Int) : |Int.tdiv b a * a| ≤ |b| := by
  rw [Int.abs_eq_natAbs, Int.abs_eq_natAbs, Int.natAbs_mul, Int.natAbs_tdiv]
  have h : b.natAbs / a.natAbs * a.natAbs ≤ b.natAbs := Nat.div_mul_le_self _ _
  exact_mod_cast h

/-- The quotient is a Go `int` unless the dividend is the least `int` and the
divisor is -1. -/
theorem tdiv_isInt (b a : Int) (hbi : isInt b)
    (hno : ¬ (b = -9223372036854775808 ∧ a = -1)) : isInt (Int.tdiv b a) := by
  unfold isInt at hbi ⊢
  by_cases h1 : a = 1
  · subst h1
    have : Int.tdiv b 1 = b := Int.tdiv_one b
    omega
  by_cases hm1 : a = -1
  · subst hm1
    have : Int.tdiv b (-1) = -b := by
      rw [show (-1 : Int) = -(1 : Int) by rfl, Int.tdiv_neg, Int.tdiv_one]
    omega
  · have hq : (Int.tdiv b a).natAbs = b.natAbs / a.natAbs := Int.natAbs_tdiv b a
    by_cases h0 : a = 0
    · subst h0
      have hz : Int.tdiv b 0 = 0 := Int.tdiv_zero b
      omega
    · have h2 : 2 ≤ a.natAbs := by omega
      have hle : b.natAbs / a.natAbs ≤ b.natAbs / 2 :=
        Nat.div_le_div_left h2 (by norm_num)
      omega

theorem execOp_divmod (sc : Scanner) (cell : Cell) (s : State) (a b : Int) (c2 c3 : Context)
    (hop : cell.op = OpDiv ∨ cell.op = OpMod) (ha : a ≠ 0)
    (hpop : pop2 s.ctx = .ok (a, b, c2))
    (hpush : c2.Push (if cell.op = OpDiv then wrapInt (Int.tdiv b a) else Int.tmod b a) = .ok c3) :
    execOp sc cell s = .ok (.running { s with ctx := c3 }) := by
  rcases hop with h | h
  · simp only [h, if_true] at hpush
    simp [execOp, h, OpDiv, hpop, ha, hpush]
  · have hne : ¬ (OpMod = OpDiv) := by decide
    simp only [h, hne, if_false] at hpush
    simp [execOp, h, OpDiv, OpAdd, OpMul, OpMod, hpop, ha, hpush]

/-- C15.  For a divide or modulo cell on a bank from which `a` is popped first
and `b` second, with `a` not zero and the quotient representable (not the least
`int` divided by -1): there are `q` and `r` with `b = q * a + r`, `|r| < |a|`,
`r` of the sign of `b` (or zero) and `|q * a| <= |b|`, that is, `q` is the
quotient rounded toward zero; divide pushes `q` and modulo pushes `r`. -/
theorem C15_div_mod_truncate (sc : Scanner) (space : Space) (cell : Cell) (s : State)
    (a b : Int) (c1 c2 : Context)
    (hfetch : fetch space s.x s.y = .ok cell) (hop : cell.op = OpDiv ∨ cell.op = OpMod)
    (hpa : s.ctx.Pop = .ok (a, c1)) (hpb : c1.Pop = .ok (b, c2))
    (ha : a ≠ 0) (hbi : isInt b) (hno : ¬ (b = -9223372036854775808 ∧ a = -1)) :
    ∃ q r s1, b = q * a + r ∧ |r| < |a| ∧ (0 ≤ b → 0 ≤ r) ∧ (b ≤ 0 → r ≤ 0) ∧
      |q * a| ≤ |b| ∧
      step sc space s = .ok (.running s1) ∧
      c2.Push (if cell.op = OpDiv then q else r) = .ok s1.ctx ∧
      s1.out = s.out ∧ s1.stdin = s.stdin := by
  obtain ⟨n, hsize, hn, hpop, hpush⟩ := pop2_ok_size hpa hpb
  have hq : wrapInt (Int.tdiv b a) = Int.tdiv b a := by
    have := tdiv_isInt b a hbi hno
    unfold isInt at this
    unfold wrapInt
    omega
  obtain ⟨c3, hc3⟩ := hpush (if cell.op = OpDiv then Int.tdiv b a else Int.tmod b a)
  have hc3w : c2.Push (if cell.op = OpDiv then wrapInt (Int.tdiv b a) else Int.tmod b a) =
      .ok c3 := by rw [hq]; exact hc3
  have hreq : requiredElems cell.op = 2 := by
    rcases hop with h | h <;> rw [h] <;> decide
  have hex := execOp_divmod sc cell { s with dir := updateDir s.dir cell } a b c2 c3 hop ha
    hpop hc3w
  have hb := tmod_bounds b a ha
  refine ⟨Int.tdiv b a, Int.tmod b a,
    advance space { s with dir := updateDir s.dir cell, ctx := c3 },
    (Int.tdiv_add_tmod' b a).symm, hb.1, hb.2.1, hb.2.2, tdiv_mul_abs_le b a, ?_, ?_, ?_, ?_⟩
  · have hnlt : ¬ n < 2 := by omega
    simp only [step, hfetch, stepCell, hsize, hreq, hnlt, if_false, hex]
  · simpa [advance] using hc3
  · simp [advance]
  · simp [advance]

/-- C15 (witness).  With `b = -7` and `a = 2` on bank 0 the divide cell decoded
from U+B098 leaves `[-3]`, and the modulo cell decoded from U+B77C would leave
`[-1]`: the remainder -1 and the quotient -3 are the only values the statement
allows. -/
theorem C15_div_mod_truncate_witness :
    Decode 0xB098 = .ok divCell ∧ Decode 0xB77C = .ok modCell ∧
    (∃ s1, step Scanner.eof (Space.single divCell)
        { State.init [] with ctx := Context.single 0 0 [-7, 2] } = .ok (.running s1) ∧
      s1.ctx.storage 0 = [-3]) ∧
    (∃ s1, step Scanner.eof (Space.single modCell)
        { State.init [] with ctx := Context.single 0 0 [-7, 2] } = .ok (.running s1) ∧
      s1.ctx.storage 0 = [-1]) := by
  refine ⟨by rfl, by rfl, ?_, ?_⟩
  · obtain ⟨q, r, s1, h1, h2, _, h4, _, hstep, hpush, _⟩ :=
      C15_div_mod_truncate Scanner.eof (Space.single divCell) divCell
        { State.init [] with ctx := Context.single 0 0 [-7, 2] } 2 (-7)
        ⟨0, Function.update (Function.update (fun _ => []) 0 [-7, 2]) 0 [-7]⟩
        ⟨0, Function.update (Function.update (Function.update (fun _ => []) 0 [-7, 2]) 0 [-7]) 0 []⟩
        (by rfl) (by decide) (by rfl) (by rfl) (by decide) (by decide) (by decide)
    have hr := h4 (by decide)
    rw [abs_lt] at h2
    have h2' : -2 < r ∧ r < 2 := by simpa using h2
    have hq : q = -3 := by omega
    subst hq
    refine ⟨s1, hstep, ?_⟩
    rw [if_pos (show divCell.op = OpDiv from rfl)] at hpush
    have hp := hpush
    simp only [Context.Push, Context.PushTo, if_true] at hp
    have hb0 : bank 0 = .ok 0 := by rfl
    simp only [hb0] at hp
    injection hp with hp
    rw [← hp]
    simp
  · obtain ⟨q, r, s1, h1, h2, _, h4, _, hstep, hpush, _⟩ :=
      C15_div_mod_truncate Scanner.eof (Space.single modCell) modCell
        { State.init [] with ctx := Context.single 0 0 [-7, 2] } 2 (-7)
        ⟨0, Function.update (Function.update (fun _ => []) 0 [-7, 2]) 0 [-7]⟩
        ⟨0, Function.update (Function.update (Function.update (fun _ => []) 0 [-7, 2]) 0 [-7]) 0 []⟩
        (by rfl) (by decide) (by rfl) (by rfl) (by decide) (by decide) (by decide)
    have hr := h4 (by decide)
    rw [abs_lt] at h2
    have h2' : -2 < r ∧ r < 2 := by simpa using h2
    have hq : r = -1 := by omega
    subst hq
    refine ⟨s1, hstep, ?_⟩
    rw [if_neg (show ¬ modCell.op = OpDiv by decide)] at hpush
    have hp := hpush
    simp only [Context.Push, Context.PushTo, if_true] at hp
    have hb0 : bank 0 = .ok 0 := by rfl
    simp only [hb0] at hp
    injection hp with hp
    rw [← hp]
    simp

/-! ## Halt -/

/-- The switch returns only in the case `OpExit`, and then with the state it
was given. -/
theorem execOp_halted (sc : Scanner) (cell : Cell) (s s2 : State)
    (h : execOp sc cell s = .ok (.halted s2)) : cell.op = OpExit ∧ s2 = s := by
  by_cases hop : cell.op = OpDiv
  · exfalso
    simp only [execOp, hop, OpDiv, OpAdd, OpMul, OpMod, OpPrintNum, OpPrintChar, OpPop,
      OpInputNum, OpInputChar, OpPush, OpDup, OpSwitch, OpMove, OpCmp, OpBranch, OpSub, OpSwap,
      OpExit] at h
    norm_num at h
    first
      | cases h
      | (repeat' split at h
         all_goals cases h)
  have nOpDiv := hop
  clear hop
  by_cases hop : cell.op = OpAdd
  · exfalso
    simp only [execOp, hop, OpDiv, OpAdd, OpMul, OpMod, OpPrintNum, OpPrintChar, OpPop,
      OpInputNum, OpInputChar, OpPush, OpDup, OpSwitch, OpMove, OpCmp, OpBranch, OpSub, OpSwap,
      OpExit] at h
    norm_num at h
    first
      | cases h
      | (repeat' split at h
         all_goals cases h)
  have nOpAdd := hop
  clear hop
  by_cases hop : cell.op = OpMul
  · exfalso
    simp only [execOp, hop, OpDiv, OpAdd, OpMul, OpMod, OpPrintNum, OpPrintChar, OpPop,
      OpInputNum, OpInputChar, OpPush, OpDup, OpSwitch, OpMove, OpCmp, OpBranch, OpSub, OpSwap,
      OpExit] at h
    norm_num at h
    first
      | cases h
      | (repeat' split at h
         all_goals cases h)
  have nOpMul := hop
  clear hop
  by_cases hop : cell.op = OpMod
  · exfalso
    simp only [execOp, hop, OpDiv, OpAdd, OpMul, OpMod, OpPrintNum, OpPrintChar, OpPop,
      OpInputNum, OpInputChar, OpPush, OpDup, OpSwitch, OpMove, OpCmp, OpBranch, OpSub, OpSwap,
      OpExit] at h
    norm_num at h
    first
      | cases h
      | (repeat' split at h
         all_goals cases h)
  have nOpMod := hop
  clear hop
  by_cases hop : cell.op = OpPrintNum
  · exfalso
    simp only [execOp, hop, OpDiv, OpAdd, OpMul, OpMod, OpPrintNum, OpPrintChar, OpPop,
      OpInputNum, OpInputChar, OpPush, OpDup, OpSwitch, OpMove, OpCmp, OpBranch, OpSub, OpSwap,
      OpExit] at h
    norm_num at h
    first
      | cases h
      | (repeat' split at h
         all_goals cases h)
  have nOpPrintNum := hop
  clear hop
  by_cases hop : cell.op = OpPrintChar
  · exfalso
    simp only [execOp, hop, OpDiv, OpAdd, OpMul, OpMod, OpPrintNum, OpPrintChar, OpPop,
      OpInputNum, OpInputChar, OpPush, OpDup, OpSwitch, OpMove, OpCmp, OpBranch, OpSub, OpSwap,
      OpExit] at h
    norm_num at h
    first
      | cases h
      | (repeat' split at h
         all_goals cases h)
  have nOpPrintChar := hop
  clear hop
  by_cases hop : cell.op = OpPop
  · exfalso
    simp only [execOp, hop, OpDiv, OpAdd, OpMul, OpMod, OpPrintNum, OpPrintChar, OpPop,
      OpInputNum, OpInputChar, OpPush, OpDup, OpSwitch, OpMove, OpCmp, OpBranch, OpSub, OpSwap,
      OpExit] at h
    norm_num at h
    first
      | cases h
      | (repeat' split at h
         all_goals cases h)
  have nOpPop := hop
  clear hop
  by_cases hop : cell.op = OpInputNum
  · exfalso
    simp only [execOp, hop, OpDiv, OpAdd, OpMul, OpMod, OpPrintNum, OpPrintChar, OpPop,
      OpInputNum, OpInputChar, OpPush, OpDup, OpSwitch, OpMove, OpCmp, OpBranch, OpSub, OpSwap,
      OpExit] at h
    norm_num at h
    first
      | cases h
      | (repeat' split at h
         all_goals cases h)
  have nOpInputNum := hop
  clear hop
  by_cases hop : cell.op = OpInputChar
  · exfalso
    simp only [execOp, hop, OpDiv, OpAdd, OpMul, OpMod, OpPrintNum, OpPrintChar, OpPop,
      OpInputNum, OpInputChar, OpPush, OpDup, OpSwitch, OpMove, OpCmp, OpBranch, OpSub, OpSwap,
      OpExit] at h
    norm_num at h
    first
      | cases h
      | (repeat' split at h
         all_goals cases h)
  have nOpInputChar := hop
  clear hop
  by_cases hop : cell.op = OpPush
  · exfalso
    simp only [execOp, hop, OpDiv, OpAdd, OpMul, OpMod, OpPrintNum, OpPrintChar, OpPop,
      OpInputNum, OpInputChar, OpPush, OpDup, OpSwitch, OpMove, OpCmp, OpBranch, OpSub, OpSwap,
      OpExit] at h
    norm_num at h
    first
      | cases h
      | (repeat' split at h
         all_goals cases h)
  have nOpPush := hop
  clear hop
  by_cases hop : cell.op = OpDup
  · exfalso
    simp only [execOp, hop, OpDiv, OpAdd, OpMul, OpMod, OpPrintNum, OpPrintChar, OpPop,
      OpInputNum, OpInputChar, OpPush, OpDup, OpSwitch, OpMove, OpCmp, OpBranch, OpSub, OpSwap,
      OpExit] at h
    norm_num at h
    first
      | cases h
      | (repeat' split at h
         all_goals cases h)
  have nOpDup := hop
  clear hop
  by_cases hop : cell.op = OpSwitch
  · exfalso
    simp only [execOp, hop, OpDiv, OpAdd, OpMul, OpMod, OpPrintNum, OpPrintChar, OpPop,
      OpInputNum, OpInputChar, OpPush, OpDup, OpSwitch, OpMove, OpCmp, OpBranch, OpSub, OpSwap,
      OpExit] at h
    norm_num at h
    cases h
  have nOpSwitch := hop
  clear hop
  by_cases hop : cell.op = OpMove
  · exfalso
    simp only [execOp, hop, OpDiv, OpAdd, OpMul, OpMod, OpPrintNum, OpPrintChar, OpPop,
      OpInputNum, OpInputChar, OpPush, OpDup, OpSwitch, OpMove, OpCmp, OpBranch, OpSub, OpSwap,
      OpExit] at h
    norm_num at h
    first
      | cases h
      | (repeat' split at h
         all_goals cases h)
  have nOpMove := hop
  clear hop
  by_cases hop : cell.op = OpCmp
  · exfalso
    simp only [execOp, hop, OpDiv, OpAdd, OpMul, OpMod, OpPrintNum, OpPrintChar, OpPop,
      OpInputNum, OpInputChar, OpPush, OpDup, OpSwitch, OpMove, OpCmp, OpBranch, OpSub, OpSwap,
      OpExit] at h
    norm_num at h
    first
      | cases h
      | (repeat' split at h
         all_goals cases h)
  have nOpCmp := hop
  clear hop
  by_cases hop : cell.op = OpBranch
  · exfalso
    simp only [execOp, hop, OpDiv, OpAdd, OpMul, OpMod, OpPrintNum, OpPrintChar, OpPop,
      OpInputNum, OpInputChar, OpPush, OpDup, OpSwitch, OpMove, OpCmp, OpBranch, OpSub, OpSwap,
      OpExit] at h
    norm_num at h
    first
      | cases h
      | (repeat' split at h
         all_goals cases h)
  have nOpBranch := hop
  clear hop
  by_cases hop : cell.op = OpSub
  · exfalso
    simp only [execOp, hop, OpDiv, OpAdd, OpMul, OpMod, OpPrintNum, OpPrintChar, OpPop,
      OpInputNum, OpInputChar, OpPush, OpDup, OpSwitch, OpMove, OpCmp, OpBranch, OpSub, OpSwap,
      OpExit] at h
    norm_num at h
    first
      | cases h
      | (repeat' split at h
         all_goals cases h)
  have nOpSub := hop
  clear hop
  by_cases hop : cell.op = OpSwap
  · exfalso
    simp only [execOp, hop, OpDiv, OpAdd, OpMul, OpMod, OpPrintNum, OpPrintChar, OpPop,
      OpInputNum, OpInputChar, OpPush, OpDup, OpSwitch, OpMove, OpCmp, OpBranch, OpSub, OpSwap,
      OpExit] at h
    norm_num at h
    first
      | cases h
      | (repeat' split at h
         all_goals cases h)
  have nOpSwap := hop
  clear hop
  by_cases hop : cell.op = OpExit
  · refine ⟨hop, ?_⟩
    simp [execOp, hop, OpDiv, OpAdd, OpMul, OpMod, OpPrintNum, OpPrintChar, OpPop, OpInputNum, OpInputChar, OpPush, OpDup, OpSwitch, OpMove, OpCmp, OpBranch, OpSub, OpSwap, OpExit] at h
    exact h.symm
  have nOpExit := hop
  clear hop
  simp only [execOp, nOpDiv, nOpAdd, nOpMul, nOpMod, nOpPrintNum, nOpPrintChar, nOpPop, nOpInputNum, nOpInputChar, nOpPush, nOpDup, nOpSwitch, nOpMove, nOpCmp, nOpBranch, nOpSub, nOpSwap, nOpExit, if_false] at h
  injection h with h
  cases h

theorem execOp_exit (sc : Scanner) (cell : Cell) (s : State) (hop : cell.op = OpExit) :
    execOp sc cell s = .ok (.halted s) := by
  simp [execOp, hop, OpDiv, OpAdd, OpMul, OpMod, OpPrintNum, OpPrintChar, OpPop, OpInputNum,
    OpInputChar, OpPush, OpDup, OpSwitch, OpMove, OpCmp, OpBranch, OpSub, OpSwap, OpExit]

theorem stepCell_exit (sc : Scanner) (space : Space) (cell : Cell) (s : State) (i : Fin 28)
    (hcur : bank s.ctx.curStorage = .ok i) (hop : cell.op = OpExit) :
    stepCell sc space cell s = .ok (.halted { s with dir := updateDir s.dir cell }) := by
  have hsize : ({ s with dir := updateDir s.dir cell } : State).ctx.StorageSize =
      .ok ((s.ctx.storage i).length : Int) := StorageSize_of_bank hcur
  have hreq : requiredElems cell.op = 0 := by rw [hop]; decide
  have hnlt : ¬ ((s.ctx.storage i).length : Int) < 0 := by omega
  simp only [stepCell, hsize, hreq, hnlt, if_false, execOp_exit sc cell _ hop]

theorem stepCell_halted (sc : Scanner) (space : Space) (cell : Cell) (s s1 : State)
    (h : stepCell sc space cell s = .ok (.halted s1)) :
    cell.op = OpExit ∧ s1 = { s with dir := updateDir s.dir cell } := by
  unfold stepCell at h
  simp only at h
  split at h
  · split at h
    · cases h
    · split at h
      · cases h
      · rename_i s2 hex
        injection h with h
        injection h with h
        subst h
        exact execOp_halted sc cell _ _ hex
      · cases h
  · cases h

/-- C16 (amended).  With the selector on a bank, a step returns from `Execute`
(the outcome `halted`) exactly when the fetched cell's operation is `OpExit`;
a panic is a different outcome and is not covered by this equivalence.  A halt
cell is never bounced, whatever the bank holds (its required count is 0), and
the returning step leaves the banks, the selector, the input, the output and
the pointer as they were.  A one-cell grid whose character decodes to halt
returns at the first step, for every amount of fuel, with all banks empty and
nothing written. -/
theorem C16_halt (sc : Scanner) (space : Space) (cell : Cell) (s : State) (i : Fin 28)
    (hfetch : fetch space s.x s.y = .ok cell) (hcur : bank s.ctx.curStorage = .ok i) :
    ((∃ s1, step sc space s = .ok (.halted s1)) ↔ cell.op = OpExit) ∧
    (cell.op = OpExit →
      step sc space s = .ok (.halted { s with dir := updateDir s.dir cell })) ∧
    (∀ s1, step sc space s = .ok (.halted s1) →
      s1.ctx = s.ctx ∧ s1.out = s.out ∧ s1.stdin = s.stdin ∧ s1.x = s.x ∧ s1.y = s.y) ∧
    requiredElems OpExit = 0 ∧
    (∀ (r : Int) (c : Cell) (stdin : List Nat) (fuel : Nat), Decode r = .ok c → c.op = OpExit →
      ∃ s1, Execute sc ⟨[[c]], 1, 1⟩ stdin (fuel + 1) = .ok (.halted s1) ∧
        (∀ j, s1.ctx.storage j = []) ∧ s1.ctx.curStorage = 0 ∧ s1.out = "") := by
  have hstep : step sc space s = stepCell sc space cell s := by simp only [step, hfetch]
  refine ⟨⟨?_, ?_⟩, ?_, ?_, by decide, ?_⟩
  · rintro ⟨s1, h1⟩
    rw [hstep] at h1
    exact (stepCell_halted sc space cell s s1 h1).1
  · intro hop
    exact ⟨_, by rw [hstep]; exact stepCell_exit sc space cell s i hcur hop⟩
  · intro hop
    rw [hstep]
    exact stepCell_exit sc space cell s i hcur hop
  · intro s1 h1
    rw [hstep] at h1
    have h2 := (stepCell_halted sc space cell s s1 h1).2
    subst h2
    exact ⟨rfl, rfl, rfl, rfl, rfl⟩
  · intro r c stdin fuel _ hop
    have hf : fetch ⟨[[c]], 1, 1⟩ (State.init stdin).x (State.init stdin).y = .ok c := by rfl
    have h1 : step sc ⟨[[c]], 1, 1⟩ (State.init stdin) =
        .ok (.halted { State.init stdin with dir := updateDir (State.init stdin).dir c }) := by
      simp only [step, hf]
      exact stepCell_exit sc _ c (State.init stdin) 0 (by rfl) hop
    refine ⟨{ State.init stdin with dir := updateDir (State.init stdin).dir c }, ?_,
      fun _ => rfl, rfl, rfl⟩
    simp only [Execute, stepN, h1]

/-- C16 (witness).  U+D558 decodes to the halt cell; the one-cell grid holding
it returns at the first step with bank 0 empty and no output. -/
theorem C16_halt_witness :
    Decode 0xD558 = .ok haltCell ∧
    (∃ s1, Execute Scanner.eof (Space.single haltCell) [] 1 = .ok (.halted s1) ∧
      s1.ctx.storage 0 = [] ∧ s1.out = "") ∧
    (∃ s1, step Scanner.eof (Space.single haltCell) (State.init []) = .ok (.halted s1)) := by
  have h := C16_halt Scanner.eof (Space.single haltCell) haltCell (State.init []) 0
    (by rfl) (by rfl)
  refine ⟨by rfl, ?_, h.1.mpr rfl⟩
  obtain ⟨s1, h1, h2, _, h4⟩ := h.2.2.2.2 0xD558 haltCell [] 0 (by rfl) rfl
  exact ⟨s1, h1, h2 0, h4⟩

/-! ## End to end: push, push, add, print, halt -/

theorem Decode_push_range (r : Int) (c : Cell) (h : Decode r = .ok c) (hop : c.op = OpPush) :
    0 ≤ c.value ∧ c.value ≤ 9 := by
  by_cases hr : IsHangul r = true
  · obtain ⟨c1, hc1, _, hcases⟩ := Decode_hangul r hr
    rw [h] at hc1
    injection hc1 with hc1
    subst hc1
    have hrange := (IsHangul_iff r).mp hr
    rcases hcases with ⟨_, _, ho⟩ | ⟨_, _, _, ho⟩ | ⟨_, _, _, ho⟩ | ⟨_, _, _, hv, _⟩ | ⟨_, _, _, ho⟩
    · rw [hop] at ho
      split_ifs at ho <;> simp [OpPush, OpPrintNum, OpPrintChar, OpPop] at ho
    · rw [hop] at ho; simp [OpPush, OpInputNum] at ho
    · rw [hop] at ho; simp [OpPush, OpInputChar] at ho
    · exact index_values_range _ _ (by omega) (by omega) hv
    · rw [hop] at ho
      simp only [OpPush] at ho
      omega
  · simp only [Decode, hr] at h
    injection h with h
    subst h
    simp [Cell.zero, OpPush] at hop

theorem stepN_succ_running (sc : Scanner) (space : Space) (n : Nat) (s s1 : State)
    (h : step sc space s = .ok (.running s1)) :
    stepN sc space (n + 1) s = stepN sc space n s1 := by
  rw [stepN, h]

theorem stepN_succ_halted (sc : Scanner) (space : Space) (n : Nat) (s s1 : State)
    (h : step sc space s = .ok (.halted s1)) :
    stepN sc space (n + 1) s = .ok (.halted s1) := by
  rw [stepN, h]

theorem sum_step1 (sc : Scanner) (stdin : List Nat) (a b v3 v4 v5 : Int) :
    step sc (Space.row [⟨OpPush, a, ⟨1, 0, DirSet⟩⟩, ⟨OpPush, b, ⟨1, 0, DirSet⟩⟩,
        ⟨OpAdd, v3, ⟨1, 0, DirSet⟩⟩, ⟨OpPrintNum, v4, ⟨1, 0, DirSet⟩⟩,
        ⟨OpExit, v5, ⟨1, 0, DirSet⟩⟩]) (State.init stdin) =
      .ok (.running ⟨1, 0, ⟨1, 0, DirSet⟩, ⟨0, Function.update (fun _ => []) 0 [a]⟩,
        stdin, ""⟩) := by
  rfl

theorem sum_step2 (sc : Scanner) (stdin : List Nat) (a b v3 v4 v5 : Int)
    (st : Fin 28 → List Int) :
    step sc (Space.row [⟨OpPush, a, ⟨1, 0, DirSet⟩⟩, ⟨OpPush, b, ⟨1, 0, DirSet⟩⟩,
        ⟨OpAdd, v3, ⟨1, 0, DirSet⟩⟩, ⟨OpPrintNum, v4, ⟨1, 0, DirSet⟩⟩,
        ⟨OpExit, v5, ⟨1, 0, DirSet⟩⟩])
        ⟨1, 0, ⟨1, 0, DirSet⟩, ⟨0, Function.update st 0 [a]⟩, stdin, ""⟩ =
      .ok (.running ⟨2, 0, ⟨1, 0, DirSet⟩,
        ⟨0, Function.update (Function.update st 0 [a]) 0 [a, b]⟩, stdin, ""⟩) := by
  rfl

theorem sum_step3 (sc : Scanner) (stdin : List Nat) (a b v3 v4 v5 : Int)
    (st : Fin 28 → List Int) :
    step sc (Space.row [⟨OpPush, a, ⟨1, 0, DirSet⟩⟩, ⟨OpPush, b, ⟨1, 0, DirSet⟩⟩,
        ⟨OpAdd, v3, ⟨1, 0, DirSet⟩⟩, ⟨OpPrintNum, v4, ⟨1, 0, DirSet⟩⟩,
        ⟨OpExit, v5, ⟨1, 0, DirSet⟩⟩])
        ⟨2, 0, ⟨1, 0, DirSet⟩, ⟨0, Function.update st 0 [a, b]⟩, stdin, ""⟩ =
      .ok (.running ⟨3, 0, ⟨1, 0, DirSet⟩,
        ⟨0, Function.update (Function.update (Function.update (Function.update st 0 [a, b])
          0 [a]) 0 []) 0 [wrapInt (a + b)]⟩, stdin, ""⟩) := by
  rfl

theorem sum_step4 (sc : Scanner) (stdin : List Nat) (a b v3 v4 v5 w : Int)
    (st : Fin 28 → List Int) :
    step sc (Space.row [⟨OpPush, a, ⟨1, 0, DirSet⟩⟩, ⟨OpPush, b, ⟨1, 0, DirSet⟩⟩,
        ⟨OpAdd, v3, ⟨1, 0, DirSet⟩⟩, ⟨OpPrintNum, v4, ⟨1, 0, DirSet⟩⟩,
        ⟨OpExit, v5, ⟨1, 0, DirSet⟩⟩])
        ⟨3, 0, ⟨1, 0, DirSet⟩, ⟨0, Function.update st 0 [w]⟩, stdin, ""⟩ =
      .ok (.running ⟨4, 0, ⟨1, 0, DirSet⟩,
        ⟨0, Function.update (Function.update st 0 [w]) 0 []⟩, stdin, "" ++ fmtD w⟩) := by
  rfl

theorem sum_step5 (sc : Scanner) (stdin : List Nat) (a b v3 v4 v5 : Int)
    (st : Fin 28 → List Int) (o : String) :
    step sc (Space.row [⟨OpPush, a, ⟨1, 0, DirSet⟩⟩, ⟨OpPush, b, ⟨1, 0, DirSet⟩⟩,
        ⟨OpAdd, v3, ⟨1, 0, DirSet⟩⟩, ⟨OpPrintNum, v4, ⟨1, 0, DirSet⟩⟩,
        ⟨OpExit, v5, ⟨1, 0, DirSet⟩⟩])
        ⟨4, 0, ⟨1, 0, DirSet⟩, ⟨0, st⟩, stdin, o⟩ =
      .ok (.halted ⟨4, 0, ⟨1, 0, DirSet⟩, ⟨0, st⟩, stdin, o⟩) := by
  rfl

/-- C17.  For a one-row grid of five cells that are push-literal `a`,
push-literal `b` (both decoded from syllables), add, print-number and halt,
each with the rightward direction (1, 0): the loop is still running after four
iterations, returns at the fifth for every larger amount of fuel, and the text
written is exactly the decimal form of `a + b`; all banks are empty at the
end and no input was read. -/
theorem C17_push_push_add_print (sc : Scanner) (stdin : List Nat) (r1 r2 : Int)
    (c1 c2 c3 c4 c5 : Cell) (a b : Int)
    (h1 : Decode r1 = .ok c1) (h2 : Decode r2 = .ok c2)
    (e1 : c1.op = OpPush ∧ c1.value = a ∧ c1.dir = ⟨1, 0, DirSet⟩)
    (e2 : c2.op = OpPush ∧ c2.value = b ∧ c2.dir = ⟨1, 0, DirSet⟩)
    (e3 : c3.op = OpAdd ∧ c3.dir = ⟨1, 0, DirSet⟩)
    (e4 : c4.op = OpPrintNum ∧ c4.dir = ⟨1, 0, DirSet⟩)
    (e5 : c5.op = OpExit ∧ c5.dir = ⟨1, 0, DirSet⟩) :
    (∃ s4, Execute sc (Space.row [c1, c2, c3, c4, c5]) stdin 4 = .ok (.running s4) ∧
      s4.out = fmtD (a + b)) ∧
    ∃ s5, (∀ k, Execute sc (Space.row [c1, c2, c3, c4, c5]) stdin (k + 5) = .ok (.halted s5)) ∧
      s5.out = fmtD (a + b) ∧ (∀ j, s5.ctx.storage j = []) ∧ s5.stdin = stdin := by
  have ha := Decode_push_range r1 c1 h1 e1.1
  have hb := Decode_push_range r2 c2 h2 e2.1
  obtain ⟨op1, v1, d1⟩ := c1
  obtain ⟨op2, v2, d2⟩ := c2
  obtain ⟨op3, v3, d3⟩ := c3
  obtain ⟨op4, v4, d4⟩ := c4
  obtain ⟨op5, v5, d5⟩ := c5
  simp only at e1 e2 e3 e4 e5 ha hb
  obtain ⟨rfl, rfl, rfl⟩ := e1
  obtain ⟨rfl, rfl, rfl⟩ := e2
  obtain ⟨rfl, rfl⟩ := e3
  obtain ⟨rfl, rfl⟩ := e4
  obtain ⟨rfl, rfl⟩ := e5
  have hw : wrapInt (v1 + v2) = v1 + v2 := by unfold wrapInt; omega
  have s1 := sum_step1 sc stdin v1 v2 v3 v4 v5
  have s2 := sum_step2 sc stdin v1 v2 v3 v4 v5 (fun _ => [])
  have s3 := sum_step3 sc stdin v1 v2 v3 v4 v5 (Function.update (fun _ => []) 0 [v1])
  have s4 := sum_step4 sc stdin v1 v2 v3 v4 v5 (wrapInt (v1 + v2))
    (Function.update (Function.update (Function.update (Function.update (fun _ => []) 0 [v1]) 0 [v1, v2]) 0 [v1]) 0 [])
  have s5 := sum_step5 sc stdin v1 v2 v3 v4 v5
    (Function.update (Function.update (Function.update (Function.update (Function.update (Function.update (fun _ => []) 0 [v1]) 0 [v1, v2]) 0 [v1]) 0 []) 0 [wrapInt (v1 + v2)]) 0 [])
    ("" ++ fmtD (wrapInt (v1 + v2)))
  have hout : "" ++ fmtD (wrapInt (v1 + v2)) = fmtD (v1 + v2) := by
    rw [hw]; exact String.empty_append _
  constructor
  · refine ⟨(⟨4, 0, ⟨1, 0, DirSet⟩, ⟨0, (Function.update (Function.update (Function.update (Function.update (Function.update (Function.update (fun _ => []) 0 [v1]) 0 [v1, v2]) 0 [v1]) 0 []) 0 [wrapInt (v1 + v2)]) 0 [])⟩, stdin,
      "" ++ fmtD (wrapInt (v1 + v2))⟩ : State), ?_, hout⟩
    rw [Execute, stepN_succ_running sc _ 3 _ _ s1, stepN_succ_running sc _ 2 _ _ s2,
      stepN_succ_running sc _ 1 _ _ s3, stepN_succ_running sc _ 0 _ _ s4]
    rfl
  · refine ⟨(⟨4, 0, ⟨1, 0, DirSet⟩, ⟨0, (Function.update (Function.update (Function.update (Function.update (Function.update (Function.update (fun _ => []) 0 [v1]) 0 [v1, v2]) 0 [v1]) 0 []) 0 [wrapInt (v1 + v2)]) 0 [])⟩, stdin,
      "" ++ fmtD (wrapInt (v1 + v2))⟩ : State), ?_, hout, ?_, rfl⟩
    · intro k
      rw [Execute, stepN_succ_running sc _ (k + 4) _ _ s1,
        stepN_succ_running sc _ (k + 3) _ _ s2, stepN_succ_running sc _ (k + 2) _ _ s3,
        stepN_succ_running sc _ (k + 1) _ _ s4, stepN_succ_halted sc _ k _ _ s5]
    · intro j
      by_cases hj : j = 0
      · subst hj; simp
      · simp [Function.update_noteq hj]

/-- C17 (witness).  The row U+BC1B U+BC24 U+B2E4 U+B9DD U+D558 decodes to
push 3, push 4, add, print-number, halt; `Execute` returns at the fifth step and
the output is exactly "7". -/
theorem C17_push_push_add_print_witness :
    Decode 0xBC1B = .ok ⟨OpPush, 3, ⟨1, 0, DirSet⟩⟩ ∧
    Decode 0xBC24 = .ok ⟨OpPush, 4, ⟨1, 0, DirSet⟩⟩ ∧
    Decode 0xB2E4 = .ok ⟨OpAdd, 0, ⟨1, 0, DirSet⟩⟩ ∧
    Decode 0xB9DD = .ok ⟨OpPrintNum, 21, ⟨1, 0, DirSet⟩⟩ ∧
    Decode 0xD558 = .ok ⟨OpExit, 0, ⟨1, 0, DirSet⟩⟩ ∧
    ∃ s5, Execute Scanner.eof (Space.row [⟨OpPush, 3, ⟨1, 0, DirSet⟩⟩,
        ⟨OpPush, 4, ⟨1, 0, DirSet⟩⟩, ⟨OpAdd, 0, ⟨1, 0, DirSet⟩⟩,
        ⟨OpPrintNum, 21, ⟨1, 0, DirSet⟩⟩, ⟨OpExit, 0, ⟨1, 0, DirSet⟩⟩]) [] 5 =
        .ok (.halted s5) ∧ s5.out = "7" := by
  refine ⟨by rfl, by rfl, by rfl, by rfl, by rfl, ?_⟩
  obtain ⟨_, s5, hrun, hout, _, _⟩ :=
    C17_push_push_add_print Scanner.eof [] 0xBC1B 0xBC24 ⟨OpPush, 3, ⟨1, 0, DirSet⟩⟩
      ⟨OpPush, 4, ⟨1, 0, DirSet⟩⟩ ⟨OpAdd, 0, ⟨1, 0, DirSet⟩⟩ ⟨OpPrintNum, 21, ⟨1, 0, DirSet⟩⟩
      ⟨OpExit, 0, ⟨1, 0, DirSet⟩⟩ 3 4 (by rfl) (by rfl) ⟨rfl, rfl, rfl⟩ ⟨rfl, rfl, rfl⟩
      ⟨rfl, rfl⟩ ⟨rfl, rfl⟩ ⟨rfl, rfl⟩
  exact ⟨s5, hrun 0, hout.trans (by decide)⟩

/-! ## A panic also ends the run -/

/-- C16 (counterexample).  The row U+BC15 U+BC14 U+B098 decodes to push 2,
push 0, divide.  Its third step fetches the divide cell, which is not a halt
cell, with the selector on bank 0 holding `[2, 0]`, and ends the run with the
panic `integer divide by zero`: no amount of fuel gives a later state. -/
theorem C16_zero_divisor_ends_run :
    Decode 0xBC15 = .ok ⟨OpPush, 2, ⟨1, 0, DirSet⟩⟩ ∧
    Decode 0xBC14 = .ok ⟨OpPush, 0, ⟨1, 0, DirSet⟩⟩ ∧
    Decode 0xB098 = .ok divCell ∧
    divCell.op ≠ OpExit ∧
    ∃ s2, Execute Scanner.eof (Space.row [⟨OpPush, 2, ⟨1, 0, DirSet⟩⟩,
        ⟨OpPush, 0, ⟨1, 0, DirSet⟩⟩, divCell]) [] 2 = .ok (.running s2) ∧
      fetch (Space.row [⟨OpPush, 2, ⟨1, 0, DirSet⟩⟩, ⟨OpPush, 0, ⟨1, 0, DirSet⟩⟩, divCell])
        s2.x s2.y = .ok divCell ∧
      bank s2.ctx.curStorage = .ok 0 ∧ s2.ctx.storage 0 = [2, 0] ∧
      step Scanner.eof (Space.row [⟨OpPush, 2, ⟨1, 0, DirSet⟩⟩,
        ⟨OpPush, 0, ⟨1, 0, DirSet⟩⟩, divCell]) s2 = .error .divideByZero ∧
      (¬ ∃ s3, step Scanner.eof (Space.row [⟨OpPush, 2, ⟨1, 0, DirSet⟩⟩,
        ⟨OpPush, 0, ⟨1, 0, DirSet⟩⟩, divCell]) s2 = .ok (.halted s3)) ∧
      ∀ k, Execute Scanner.eof (Space.row [⟨OpPush, 2, ⟨1, 0, DirSet⟩⟩,
        ⟨OpPush, 0, ⟨1, 0, DirSet⟩⟩, divCell]) [] (k + 3) = .error .divideByZero := by
  have h1 : step Scanner.eof (Space.row [⟨OpPush, 2, ⟨1, 0, DirSet⟩⟩,
      ⟨OpPush, 0, ⟨1, 0, DirSet⟩⟩, divCell]) (State.init []) =
      .ok (.running ⟨1, 0, ⟨1, 0, DirSet⟩, ⟨0, Function.update (fun _ => []) 0 [2]⟩, [], ""⟩) := by
    rfl
  have h2 : step Scanner.eof (Space.row [⟨OpPush, 2, ⟨1, 0, DirSet⟩⟩,
      ⟨OpPush, 0, ⟨1, 0, DirSet⟩⟩, divCell])
      ⟨1, 0, ⟨1, 0, DirSet⟩, ⟨0, Function.update (fun _ => []) 0 [2]⟩, [], ""⟩ =
      .ok (.running ⟨2, 0, ⟨1, 0, DirSet⟩,
        ⟨0, Function.update (Function.update (fun _ => []) 0 [2]) 0 [2, 0]⟩, [], ""⟩) := by
    rfl
  have h3 : step Scanner.eof (Space.row [⟨OpPush, 2, ⟨1, 0, DirSet⟩⟩,
      ⟨OpPush, 0, ⟨1, 0, DirSet⟩⟩, divCell])
      ⟨2, 0, ⟨1, 0, DirSet⟩,
        ⟨0, Function.update (Function.update (fun _ => []) 0 [2]) 0 [2, 0]⟩, [], ""⟩ =
      .error .divideByZero := by
    rfl
  refine ⟨by rfl, by rfl, by rfl, by decide, _, ?_, by rfl, by rfl, by rfl, h3, ?_, ?_⟩
  · rw [Execute, stepN_succ_running _ _ 1 _ _ h1, stepN_succ_running _ _ 0 _ _ h2]
    rfl
  · rintro ⟨s3, hs3⟩
    rw [h3] at hs3
    cases hs3
  · intro k
    rw [Execute, stepN_succ_running _ _ (k + 2) _ _ h1, stepN_succ_running _ _ (k + 1) _ _ h2,
      stepN, h3]

/-! ## The guard makes every storage access safe -/

/-- C19.  For a cell produced by `Decode` and a state whose selector names bank
`i`, if bank `i` holds at least `requiredElems[cell.op]` elements, then the
switch on `cell.op`, and with it the whole iteration, does not fail with an
index out of range: both `Pop`s of a binary operation or of `Swap` succeed,
the single `Pop` of a unary operation succeeds, `Dup` succeeds, and the `Pop`
and `PushTo` of move-to-bank succeed.  The only failure left is a zero
divisor of divide or modulo. -/
theorem C19_guard_makes_access_safe (sc : Scanner) (space : Space) (cell : Cell) (s : State)
    (i : Fin 28) (r : Int) (hdec : Decode r = .ok cell)
    (hcur : bank s.ctx.curStorage = .ok i)
    (hsize : requiredElems cell.op ≤ ((s.ctx.storage i).length : Int)) :
    execOp sc cell s ≠ .error .indexOutOfRange ∧
    stepCell sc space cell s ≠ .error .indexOutOfRange ∧
    ((∃ o, stepCell sc space cell s = .ok o) ∨
      (stepCell sc space cell s = .error .divideByZero ∧ (cell.op = OpDiv ∨ cell.op = OpMod))) ∧
    (requiredElems cell.op = 2 → ∃ a b c1 c2, s.ctx.Pop = .ok (a, c1) ∧ c1.Pop = .ok (b, c2)) ∧
    (requiredElems cell.op = 1 → ∃ v c1, s.ctx.Pop = .ok (v, c1)) ∧
    (cell.op = OpSwap → ∃ c, s.ctx.Swap = .ok c) ∧
    (cell.op = OpDup → ∃ c, s.ctx.Dup = .ok c) ∧
    (cell.op = OpMove → ∃ v c1 c2, s.ctx.Pop = .ok (v, c1) ∧ c1.PushTo cell.value v = .ok c2) := by
  have hv := Decode_value_range r cell hdec
  have hval := bank_of_range hv.1 hv.2
  have hexec : ∀ s0 : State, s0.ctx = s.ctx →
      (execOp sc cell s0 = .error .divideByZero ∧ (cell.op = OpDiv ∨ cell.op = OpMod)) ∨
      ∃ o, execOp sc cell s0 = .ok o := by
    intro s0 h0
    rcases execOp_spec sc cell s0 i (by rw [h0]; exact hcur) hval (by rw [h0]; exact hsize) with
      h | ⟨h, _⟩ | ⟨s2, h, _⟩
    · exact Or.inl h
    · exact Or.inr ⟨_, h⟩
    · exact Or.inr ⟨_, h⟩
  have hstepCell : (∃ o, stepCell sc space cell s = .ok o) ∨
      (stepCell sc space cell s = .error .divideByZero ∧ (cell.op = OpDiv ∨ cell.op = OpMod)) := by
    have hsz : ({ s with dir := updateDir s.dir cell } : State).ctx.StorageSize =
        .ok ((s.ctx.storage i).length : Int) := StorageSize_of_bank hcur
    have hnlt : ¬ ((s.ctx.storage i).length : Int) < requiredElems cell.op := by omega
    rcases hexec { s with dir := updateDir s.dir cell } rfl with ⟨h, hop⟩ | ⟨o, h⟩
    · right
      refine ⟨?_, hop⟩
      simp only [stepCell, hsz, hnlt, if_false, h]
    · left
      cases o with
      | running s2 =>
        exact ⟨.running (advance space s2), by simp only [stepCell, hsz, hnlt, if_false, h]⟩
      | halted s2 =>
        exact ⟨.halted s2, by simp only [stepCell, hsz, hnlt, if_false, h]⟩
  refine ⟨?_, ?_, hstepCell, ?_, ?_, ?_, ?_, ?_⟩
  · intro hbad
    rcases hexec s rfl with ⟨h, _⟩ | ⟨o, h⟩
    · rw [h] at hbad; cases hbad
    · rw [h] at hbad; cases hbad
  · intro hbad
    rcases hstepCell with ⟨o, h⟩ | ⟨h, _⟩
    · rw [h] at hbad; cases hbad
    · rw [h] at hbad; cases hbad
  · intro h2
    rw [h2] at hsize
    obtain ⟨a, b, c1, c2, ha, hb, _⟩ := pop2_ok_of_two s.ctx i hcur (by omega)
    exact ⟨a, b, c1, c2, ha, hb⟩
  · intro h1
    rw [h1] at hsize
    obtain ⟨v, c1, hp, _⟩ := Pop_ok_of_pos s.ctx i hcur (by omega)
    exact ⟨v, c1, hp⟩
  · intro hop
    have h2 : requiredElems cell.op = 2 := by rw [hop]; decide
    rw [h2] at hsize
    obtain ⟨c, hc, _⟩ := Swap_ok_of_two s.ctx i hcur (by omega)
    exact ⟨c, hc⟩
  · intro hop
    have h1 : requiredElems cell.op = 1 := by rw [hop]; decide
    rw [h1] at hsize
    obtain ⟨c, hc, _⟩ := Dup_ok_of_pos s.ctx i hcur (by omega)
    exact ⟨c, hc⟩
  · intro hop
    have h1 : requiredElems cell.op = 1 := by rw [hop]; decide
    rw [h1] at hsize
    obtain ⟨v, c1, hp, _⟩ := Pop_ok_of_pos s.ctx i hcur (by omega)
    obtain ⟨t, ht⟩ := hval
    obtain ⟨c2, hc2, _⟩ := PushTo_ok c1 cell.value t v ht
    exact ⟨v, c1, c2, hp, hc2⟩

/-- C19 (witness).  The move-to-bank cell decoded from U+C2F9 on bank 0 holding
one element: the guard lets it through and the iteration does not fail. -/
theorem C19_guard_makes_access_safe_witness :
    Decode 0xC2F9 = .ok moveCell ∧
    stepCell Scanner.eof (Space.single moveCell) moveCell
      { State.init [] with ctx := Context.single 0 0 [4] } ≠ .error .indexOutOfRange ∧
    ∃ v c1 c2, (Context.single 0 0 [4]).Pop = .ok (v, c1) ∧ c1.PushTo 1 v = .ok c2 := by
  have h := C19_guard_makes_access_safe Scanner.eof (Space.single moveCell) moveCell
    { State.init [] with ctx := Context.single 0 0 [4] } 0 0xC2F9 (by rfl) (by rfl) (by decide)
  exact ⟨by rfl, h.2.1, h.2.2.2.2.2.2.2 rfl⟩

/-! ## A run that never leaves the first cell -/

theorem stepN_progress (sc : Scanner) (space : Space) (P : State → Prop)
    (hstep : ∀ s, P s → ∃ s1, step sc space s = .ok (.running s1) ∧ P s1) :
    ∀ (n : Nat) (s0 : State), P s0 → ∃ s, stepN sc space n s0 = .ok (.running s) ∧ P s := by
  intro n
  induction n with
  | zero =>
    intro s0 h0
    exact ⟨s0, rfl, h0⟩
  | succ n ih =>
    intro s0 h0
    obtain ⟨s1, h1, hp1⟩ := hstep s0 h0
    obtain ⟨s, hs, hp⟩ := ih s1 hp1
    exact ⟨s, by rw [stepN_succ_running sc space n s0 s1 h1]; exact hs, hp⟩

theorem wrapInt_zero : wrapInt 0 = 0 := by decide

theorem updateDir_still (d : Dir) (cell : Cell) (hx : d.dx = 0) (hy : d.dy = 0)
    (hflag : cell.dir.flag ≠ DirSet) :
    (updateDir d cell).dx = 0 ∧ (updateDir d cell).dy = 0 := by
  unfold updateDir
  simp only [hflag, if_false]
  split_ifs <;> simp [hx, hy, wrapInt_zero]

theorem reverse_still (d : Dir) (hx : d.dx = 0) (hy : d.dy = 0) :
    (reverse d).dx = 0 ∧ (reverse d).dy = 0 := by
  simp [reverse, hx, hy, wrapInt_zero]

theorem advance_still (space : Space) (s : State) (hx : s.x = 0) (hy : s.y = 0)
    (hdx : s.dir.dx = 0) (hdy : s.dir.dy = 0) :
    (advance space s).x = 0 ∧ (advance space s).y = 0 := by
  have h00 : ¬ ((0 : Int) < 0) := by decide
  simp only [advance, hx, hy, hdx, hdy, add_zero, wrapInt_zero, h00, if_false]
  constructor
  · split_ifs <;> rfl
  · split_ifs <;> rfl

/-- C20.  The run starts at pointer (0, 0) with vector (0, 0).  If the cell
fetched at (0, 0) is a decoded cell (a blank, a position beyond the row and a
non-syllable all give the no-op cell) whose direction is not an absolute
vector and whose operation is not halt, then for every number of iterations
the loop is still running, without a panic, with pointer (0, 0) and vector
(0, 0), about to fetch the same cell again; `Execute` never returns. -/
theorem C20_stuck_at_origin (sc : Scanner) (space : Space) (stdin : List Nat) (cell : Cell)
    (r : Int) (hfetch : fetch space 0 0 = .ok cell) (hdec : Decode r = .ok cell)
    (hflag : cell.dir.flag ≠ DirSet) (hop : cell.op ≠ OpExit) :
    (State.init stdin).x = 0 ∧ (State.init stdin).y = 0 ∧
    (State.init stdin).dir.dx = 0 ∧ (State.init stdin).dir.dy = 0 ∧
    ∀ n, (∃ s, Execute sc space stdin n = .ok (.running s) ∧ s.x = 0 ∧ s.y = 0 ∧
        s.dir.dx = 0 ∧ s.dir.dy = 0 ∧ fetch space s.x s.y = .ok cell) ∧
      ∀ s1, Execute sc space stdin n ≠ .ok (.halted s1) := by
  have hv := Decode_value_range r cell hdec
  have hval := bank_of_range hv.1 hv.2
  have hinv := stepN_progress sc space
    (fun s => s.x = 0 ∧ s.y = 0 ∧ s.dir.dx = 0 ∧ s.dir.dy = 0 ∧
      ∃ i, bank s.ctx.curStorage = .ok i ∧
        (cell.op = OpDiv ∨ cell.op = OpMod → (s.ctx.storage i).length < 2))
    (by
      intro s ⟨hx, hy, hdx, hdy, i, hcur, hdiv⟩
      have hf : fetch space s.x s.y = .ok cell := by rw [hx, hy]; exact hfetch
      have hstep : step sc space s = stepCell sc space cell s := by simp only [step, hf]
      have hud := updateDir_still s.dir cell hdx hdy hflag
      have hsz : ({ s with dir := updateDir s.dir cell } : State).ctx.StorageSize =
          .ok ((s.ctx.storage i).length : Int) := StorageSize_of_bank hcur
      by_cases hlt : ((s.ctx.storage i).length : Int) < requiredElems cell.op
      · have hrev := reverse_still (updateDir s.dir cell) hud.1 hud.2
        have hadv := advance_still space
          { s with dir := reverse (updateDir s.dir cell) } hx hy hrev.1 hrev.2
        refine ⟨advance space { s with dir := reverse (updateDir s.dir cell) }, ?_, hadv.1,
          hadv.2, hrev.1, hrev.2, i, hcur, hdiv⟩
        rw [hstep]
        simp only [stepCell, hsz, hlt, if_true]
      · rcases execOp_spec sc cell { s with dir := updateDir s.dir cell } i hcur hval
          (show requiredElems cell.op ≤ ((s.ctx.storage i).length : Int) by omega) with
          ⟨_, hdm⟩ | ⟨_, hex⟩ | ⟨s2, hex, _, ⟨j, hj⟩, hx2, hy2, _, hdir⟩
        · exfalso
          have hreq : requiredElems cell.op = 2 := by
            rcases hdm with h | h <;> rw [h] <;> decide
          have := hdiv hdm
          omega
        · exact absurd hex hop
        · have hd2 : s2.dir.dx = 0 ∧ s2.dir.dy = 0 := by
            rcases hdir with h | h
            · rw [h]; exact hud
            · rw [h]; exact reverse_still _ hud.1 hud.2
          have hadv := advance_still space s2 (by rw [hx2]; exact hx) (by rw [hy2]; exact hy)
            hd2.1 hd2.2
          refine ⟨advance space s2, ?_, hadv.1, hadv.2, hd2.1, hd2.2, j, hj, ?_⟩
          · rw [hstep]
            simp only [stepCell, hsz, hlt, if_false, hex]
          · intro hdm
            exfalso
            have hreq : requiredElems cell.op = 2 := by
              rcases hdm with h | h <;> rw [h] <;> decide
            have := hdiv hdm
            omega)
  refine ⟨rfl, rfl, rfl, rfl, ?_⟩
  intro n
  obtain ⟨s, hs, hx, hy, hdx, hdy, _⟩ := hinv n (State.init stdin)
    ⟨rfl, rfl, rfl, rfl, 0, by rfl, fun _ => by simp [State.init]⟩
  refine ⟨⟨s, hs, hx, hy, hdx, hdy, by rw [hx, hy]; exact hfetch⟩, ?_⟩
  intro s1 hbad
  rw [Execute] at hbad
  rw [hs] at hbad
  cases hbad

/-- C20 (witness).  On the one-cell grid holding the no-op cell (a blank) the
pointer and the vector are still (0, 0) after 7 iterations and the loop has
not returned. -/
theorem C20_stuck_at_origin_witness :
    Decode 0x20 = .ok Cell.zero ∧
    ∃ s, Execute Scanner.eof (Space.single Cell.zero) [] 7 = .ok (.running s) ∧
      s.x = 0 ∧ s.y = 0 ∧ s.dir.dx = 0 ∧ s.dir.dy = 0 := by
  obtain ⟨s, hs, hx, hy, hdx, hdy, _⟩ :=
    ((C20_stuck_at_origin Scanner.eof (Space.single Cell.zero) [] Cell.zero 0x20 (by rfl)
      (by rfl) (by decide) (by decide)).2.2.2.2 7).1
  exact ⟨by rfl, s, hs, hx, hy, hdx, hdy⟩

/-! ## Grid loading -/

/-- Text after the last line feed never reaches the grid. -/
theorem inputLoop_no_line_feed (tail : List Int) (h : ∀ c ∈ tail, c ≠ 10) :
    ∀ (space : Space) (line : List Int), inputLoop space line tail = .ok space := by
  induction tail with
  | nil => intro space line; rfl
  | cons c rest ih =>
    intro space line
    have hc : c ≠ 10 := h c (List.mem_cons_self c rest)
    rw [inputLoop]
    simp only [hc, if_false]
    exact ih (fun d hd => h d (List.mem_cons_of_mem c hd)) space (line ++ [c])

theorem inputLoop_append (text tail : List Int) (h : ∀ c ∈ tail, c ≠ 10) :
    ∀ (space : Space) (line : List Int),
      inputLoop space line (text ++ 10 :: tail) = inputLoop space line (text ++ [10]) := by
  induction text with
  | nil =>
    intro space line
    simp only [List.nil_append, inputLoop, if_true]
    cases addLine space (line ++ [10]) with
    | error e => rfl
    | ok sp => exact inputLoop_no_line_feed tail h sp []
  | cons c rest ih =>
    intro space line
    simp only [List.cons_append, inputLoop]
    by_cases hc : c = 10
    · simp only [hc, if_true]
      cases addLine space (line ++ [10]) with
      | error e => rfl
      | ok sp => exact ih sp []
    · simp only [hc, if_false]
      exact ih space (line ++ [c])

/-- The rows of a text do not change when an unterminated line is added after
its last line feed. -/
theorem Input_unterminated_line (text tail : List Int) (h : ∀ c ∈ tail, c ≠ 10) :
    Input (text ++ 10 :: tail) = Input (text ++ [10]) ∧
    Input tail = .ok ⟨[], 0, 0⟩ :=
  ⟨inputLoop_append text tail h _ _, inputLoop_no_line_feed tail h _ _⟩

/-- C18 (code defect).  The text of the single syllable U+D558 with no line
feed after it loads as a grid with no rows, height 0 and width 0, although the
same line followed by a line feed loads as one row of one halt cell; after a
terminated first line an unterminated second line also disappears; and in the
line CR, U+D558, LF the leading carriage return is removed together with the
trailing line feed. -/
theorem C18_Input_failing :
    Input [0xD558] = .ok ⟨[], 0, 0⟩ ∧
    Input [0xD558, 10] = .ok ⟨[[haltCell]], 1, 1⟩ ∧
    Input [0xD558, 10, 0xD558] = .ok ⟨[[haltCell]], 1, 1⟩ ∧
    Input [13, 0xD558, 10] = .ok ⟨[[haltCell]], 1, 1⟩ ∧
    Input [0x20, 0xD558, 13, 10] = .ok ⟨[[Cell.zero, haltCell]], 2, 1⟩ := by
  refine ⟨by rfl, by rfl, by rfl, by rfl, by rfl⟩

end Aheui
